import Mathlib

/-!
# Verification of the `MessageUtils` core of `sqs-messenger`

This development gives a shallow embedding of `src/utils/message.utils.ts`
(`MessageUtils`): body formatting, message validation, the generic property
uniqueness check, the request builder `toRequest`, and the seed importer
`toMessage`, together with theorems about the claims of the specification.

Strings are modelled as Lean `String` (a list of characters); JavaScript's
falsiness test `!s` on a string field is the test `s = ""`.  The JavaScript
builtins used by the source (`String.prototype.trim`, `JSON.parse`,
`JSON.stringify(·, null, 4)`, `Number`/`parseFloat`) are not part of the
repository and are modelled here explicitly; their models are marked in
their doc comments.
-/

/-! ## Character and string helpers -/

/-- Whitespace recognizer used to model `String.prototype.trim` and the
whitespace skipping of `JSON.parse` (space, tab, line feed, carriage return). -/
def isWsChar (c : Char) : Bool :=
  c == ' ' || c == '\n' || c == '\t' || c == '\r'

/-- Modelled from the spec: `String.prototype.trim` (a JS builtin, missing from
`src/`): removes leading and trailing whitespace of a character list. -/
def trimChars (l : List Char) : List Char :=
  (l.dropWhile isWsChar).rdropWhile isWsChar

/-- `trim` on strings, via `trimChars`. -/
def trimStr (s : String) : String :=
  String.mk (trimChars s.data)

/-! ## Data model

`SqsMessage` and `SqsMessageAttribute` come from `app.component`; the
attribute `type` is a string at runtime (seed records are `unknown` casts, so
the validator must handle arbitrary type strings). -/

structure SqsMessageAttribute where
  id : String
  name : String
  type : String
  value : String
deriving DecidableEq

structure SqsMessage where
  id : String
  body : String
  attributes : List SqsMessageAttribute
  errors : Option (List String)
deriving DecidableEq

/-- `MessageUtils.getAttributeTypes`: the closed attribute-type catalog, as a
key/value list (insertion order of the TS object literal). -/
def getAttributeTypes : List (String × String) :=
  [("String", "String"), ("Binary", "Binary"), ("Number", "Number")]

/-- `Object.keys(MessageUtils.getAttributeTypes())`. -/
def attributeTypes : List String :=
  getAttributeTypes.map (fun p => p.1)

/-! ## Numeric-literal check -/

/-- Decimal digit test by explicit enumeration. -/
def isDigitChar (c : Char) : Bool :=
  c == '0' || c == '1' || c == '2' || c == '3' || c == '4' ||
  c == '5' || c == '6' || c == '7' || c == '8' || c == '9'

/-- Recognizes `digits ['.' digits?] | '.' digits` (a decimal mantissa). -/
def numericMantissa (l : List Char) : Bool :=
  let intPart := l.takeWhile isDigitChar
  match l.dropWhile isDigitChar with
  | [] => !intPart.isEmpty
  | '.' :: frac => (!intPart.isEmpty || !frac.isEmpty) && frac.all isDigitChar
  | _ => false

/-- Drops one optional leading sign character. -/
def stripSign (l : List Char) : List Char :=
  match l with
  | '+' :: r => r
  | '-' :: r => r
  | r => r

/-- Modelled from the spec: the numeric-literal check
`!isNaN(str) && !isNaN(parseFloat(str))` of `MessageUtils.isNumeric` relies on
the JS builtins `Number` and `parseFloat`, which are missing from `src/`;
following the spec ("value must parse as a numeric literal", accepting
`"42"`, `"-3.5"`, `"1e10"` and rejecting `"abc"`), this models an optionally
signed decimal literal with an optional exponent, or `Infinity`, surrounded by
optional whitespace. -/
def isNumeric (s : String) : Bool :=
  let l := trimChars s.data
  let l := stripSign l
  if l = "Infinity".data then true
  else
    let mant := l.takeWhile (fun c => !(c == 'e' || c == 'E'))
    let rest := l.drop mant.length
    numericMantissa mant &&
      (match rest with
       | [] => true
       | _ :: ex =>
         let ex := stripSign ex
         !ex.isEmpty && ex.all isDigitChar)

/-! ## Generic uniqueness check (`MessageUtils.isPropertyUnique`) -/

/-- `MessageUtils.isPropertyUnique`: reduces the list to its first-seen
distinct property values and compares lengths (`indexOf` membership is
modelled by decidable-equality membership). -/
def isPropertyUnique {α β : Type} [DecidableEq β] (f : α → β) (objects : List α) : Bool :=
  let propertyValues := objects.foldl
    (fun values obj => if f obj ∈ values then values else values ++ [f obj]) []
  propertyValues.length == objects.length

/-! ## Validation error strings -/

/-- A position-indexed error message: `a ++ toString index ++ b`. -/
def errAt (a : String) (index : Nat) (b : String) : String :=
  String.mk (a.data ++ (toString index).data ++ b.data)

def nameUndefinedError (index : Nat) : String :=
  errAt "Attribute Name at position " index " is undefined."

def valueUndefinedError (index : Nat) : String :=
  errAt "Attribute Value at position " index " is undefined."

def notNumberError (index : Nat) : String :=
  errAt "Attribute value at position " index " is not a number."

def typeInvalidError (index : Nat) : String :=
  errAt "Attribute Data Type at position " index " is invalid."

/-! ## The validator (`MessageUtils.validateMessage`) -/

/-- One iteration of the `message.attributes.forEach((attribute, index) => ...)`
loop of `validateMessage`: pushes the per-attribute errors onto `errs`. -/
def attributeChecksStep (errs : List String) (p : Nat × SqsMessageAttribute) : List String :=
  let errs := if p.2.name = "" then errs ++ [nameUndefinedError p.1] else errs
  let errs :=
    if p.2.value = "" then errs ++ [valueUndefinedError p.1]
    else if p.2.type = "Number" ∧ isNumeric p.2.value = false then
      errs ++ [notNumberError p.1]
    else errs
  if attributeTypes.any (fun t => p.2.type == t) then errs
  else errs ++ [typeInvalidError p.1]

/-- The error accumulation of `MessageUtils.validateMessage`: the `errors`
array after all pushes. -/
def collectErrors (message : SqsMessage) : List String :=
  let errors : List String := []
  let errors := if message.body = "" then errors ++ ["Body is not defined."] else errors
  let errors :=
    if isPropertyUnique (fun a => a.name) message.attributes then errors
    else errors ++ ["Attribute Name is not unique."]
  message.attributes.enum.foldl attributeChecksStep errors

/-- `MessageUtils.validateMessage`: returns the collected errors if any,
otherwise `undefined` (modelled as `none`). -/
def validateMessage (message : SqsMessage) : Option (List String) :=
  if collectErrors message ≠ [] then some (collectErrors message) else none

/-- The per-attribute error list as the claim states it: name empty, value
empty (which skips the numeric check), number-typed value that does not parse
as a numeric literal, and a type outside the set
`{String, Number, Binary}` — in this order, with the zero-based index. -/
def claimAttrErrors (index : Nat) (a : SqsMessageAttribute) : List String :=
  (if a.name = "" then [nameUndefinedError index] else [])
  ++ (if a.value = "" then [valueUndefinedError index]
      else if a.type = "Number" ∧ isNumeric a.value = false then [notNumberError index]
      else [])
  ++ (if a.type = "String" ∨ a.type = "Number" ∨ a.type = "Binary" then []
      else [typeInvalidError index])

/-! ## Basic lemmas about the validator shape -/

theorem attributeChecksStep_eq_append (errs : List String) (p : Nat × SqsMessageAttribute) :
    attributeChecksStep errs p = errs ++ attributeChecksStep [] p := by
  unfold attributeChecksStep
  by_cases h1 : p.2.name = "" <;> by_cases h2 : p.2.value = "" <;>
    by_cases h3 : p.2.type = "Number" ∧ isNumeric p.2.value = false <;>
    by_cases h4 : attributeTypes.any (fun t => p.2.type == t) <;>
    simp [h1, h2, h3, h4] <;> (try (split <;> simp))

theorem foldl_attributeChecksStep (l : List (Nat × SqsMessageAttribute)) :
    ∀ init : List String,
      l.foldl attributeChecksStep init = init ++ l.bind (fun p => attributeChecksStep [] p) := by
  induction l with
  | nil => intro init; simp
  | cons p l ih =>
    intro init
    rw [List.foldl_cons, ih, attributeChecksStep_eq_append]
    simp [List.append_assoc]

theorem attributeChecksStep_eq_claim (p : Nat × SqsMessageAttribute) :
    attributeChecksStep [] p = claimAttrErrors p.1 p.2 := by
  unfold attributeChecksStep claimAttrErrors
  have htypes : (attributeTypes.any (fun t => p.2.type == t) = true) ↔
      (p.2.type = "String" ∨ p.2.type = "Number" ∨ p.2.type = "Binary") := by
    simp [attributeTypes, getAttributeTypes]
    constructor
    · rintro (h | h | h) <;> simp [h]
    · rintro (h | h | h) <;> simp [h]
  by_cases h1 : p.2.name = "" <;> by_cases h2 : p.2.value = "" <;>
    by_cases h3 : p.2.type = "Number" ∧ isNumeric p.2.value = false <;>
    by_cases h4 : attributeTypes.any (fun t => p.2.type == t) <;>
    simp [h1, h2, h3, h4, htypes.symm] <;> (try decide)

/-- The structure of the collected error list: the body error, then the
uniqueness error, then the per-attribute errors in input order. -/
theorem collectErrors_eq (m : SqsMessage) :
    collectErrors m =
      (if m.body = "" then ["Body is not defined."] else [])
      ++ (if isPropertyUnique (fun a => a.name) m.attributes then []
          else ["Attribute Name is not unique."])
      ++ m.attributes.enum.bind (fun p => claimAttrErrors p.1 p.2) := by
  unfold collectErrors
  rw [foldl_attributeChecksStep]
  have : (m.attributes.enum.bind fun p => attributeChecksStep [] p) =
      m.attributes.enum.bind fun p => claimAttrErrors p.1 p.2 := by
    apply List.bind_congr  -- congruence over the list
    intro p _
    exact attributeChecksStep_eq_claim p
  rw [← this]
  by_cases h1 : m.body = "" <;>
    by_cases h2 : isPropertyUnique (fun a => a.name) m.attributes <;>
    simp [h1, h2]

/-! ## Lemmas about `isPropertyUnique` -/

/-- The first-seen accumulation inside `isPropertyUnique`. -/
def dedupFold {α β : Type} [DecidableEq β] (f : α → β) (vs : List β) (l : List α) : List β :=
  l.foldl (fun values obj => if f obj ∈ values then values else values ++ [f obj]) vs

theorem dedupFold_length_le {α β : Type} [DecidableEq β] (f : α → β) :
    ∀ (l : List α) (vs : List β), (dedupFold f vs l).length ≤ vs.length + l.length := by
  intro l
  induction l with
  | nil => intro vs; simp [dedupFold]
  | cons x l ih =>
    intro vs
    by_cases h : f x ∈ vs
    · calc (dedupFold f vs (x :: l)).length = (dedupFold f vs l).length := by
            simp [dedupFold, h]
        _ ≤ vs.length + l.length := ih vs
        _ ≤ vs.length + (x :: l).length := by
            simp only [List.length_cons]; omega
    · calc (dedupFold f vs (x :: l)).length = (dedupFold f (vs ++ [f x]) l).length := by
            simp [dedupFold, h]
        _ ≤ (vs ++ [f x]).length + l.length := ih (vs ++ [f x])
        _ = vs.length + (x :: l).length := by
            simp only [List.length_cons, List.length_append, List.length_singleton, List.length_nil]; omega

theorem dedupFold_length_eq_iff {α β : Type} [DecidableEq β] (f : α → β) :
    ∀ (l : List α) (vs : List β),
      (dedupFold f vs l).length = vs.length + l.length ↔
        ((l.map f).Nodup ∧ ∀ x ∈ l, f x ∉ vs) := by
  intro l
  induction l with
  | nil => intro vs; simp [dedupFold]
  | cons x l ih =>
    intro vs
    by_cases h : f x ∈ vs
    · have hlt : (dedupFold f vs (x :: l)).length < vs.length + (x :: l).length := by
        have : dedupFold f vs (x :: l) = dedupFold f vs l := by simp [dedupFold, h]
        rw [this]
        have := dedupFold_length_le f l vs
        simp only [List.length_cons]
        omega
      constructor
      · intro heq; omega
      · rintro ⟨-, hall⟩
        exact absurd h (hall x (by simp))
    · have hstep : dedupFold f vs (x :: l) = dedupFold f (vs ++ [f x]) l := by
        simp [dedupFold, h]
      rw [hstep]
      have harith : vs.length + (x :: l).length = (vs ++ [f x]).length + l.length := by
        simp; omega
      rw [harith, ih (vs ++ [f x])]
      constructor
      · rintro ⟨hnd, hall⟩
        have hnotx : f x ∉ l.map f := by
          intro hmem
          obtain ⟨y, hy, hyx⟩ := List.mem_map.mp hmem
          have h2 := hall y hy
          simp [hyx] at h2
        refine ⟨?_, ?_⟩
        · simp only [List.map_cons, List.nodup_cons]
          exact ⟨hnotx, hnd⟩
        · intro y hy
          rcases List.mem_cons.mp hy with rfl | hy2
          · exact h
          · have h2 := hall y hy2
            simp only [List.mem_append, List.mem_singleton] at h2
            push_neg at h2
            exact h2.1
      · rintro ⟨hnd, hall⟩
        simp only [List.map_cons, List.nodup_cons] at hnd
        refine ⟨hnd.2, ?_⟩
        intro y hy
        simp only [List.mem_append, List.mem_singleton]
        push_neg
        refine ⟨hall y (List.mem_cons_of_mem _ hy), ?_⟩
        intro hcontra
        exact hnd.1 (hcontra ▸ List.mem_map_of_mem f hy)

/-- `isPropertyUnique` is the `Nodup` test on the selected property values. -/
theorem isPropertyUnique_iff_nodup {α β : Type} [DecidableEq β] (f : α → β) (l : List α) :
    isPropertyUnique f l = true ↔ (l.map f).Nodup := by
  unfold isPropertyUnique
  rw [beq_iff_eq]
  have := dedupFold_length_eq_iff f l []
  simp only [dedupFold, List.length_nil, Nat.zero_add] at this
  rw [this]
  simp

/-- Names pairwise distinct, phrased through the validator selector. -/
theorem isPropertyUnique_name_iff (attrs : List SqsMessageAttribute) :
    isPropertyUnique (fun a => a.name) attrs = true ↔
      (attrs.map (fun a => a.name)).Nodup :=
  isPropertyUnique_iff_nodup _ attrs

/-! ## Distinctness of the error strings -/

theorem errAt_ne (a b q : String) (i k : Nat) (hk : k < a.data.length)
    (hne : a.data[k]? ≠ q.data[k]?) : errAt a i b ≠ q := by
  intro he
  apply hne
  have hd : (errAt a i b).data = q.data := congrArg String.data he
  have hsplit : (errAt a i b).data = a.data ++ ((toString i).data ++ b.data) := by
    simp [errAt, List.append_assoc]
  rw [hsplit] at hd
  rw [← hd]
  exact (List.getElem?_append_left hk).symm

theorem nameUndefinedError_ne_body (i : Nat) :
    nameUndefinedError i ≠ "Body is not defined." := by
  unfold nameUndefinedError
  exact errAt_ne _ _ _ i 0 (by decide) (by decide)

theorem valueUndefinedError_ne_body (i : Nat) :
    valueUndefinedError i ≠ "Body is not defined." := by
  unfold valueUndefinedError
  exact errAt_ne _ _ _ i 0 (by decide) (by decide)

theorem notNumberError_ne_body (i : Nat) :
    notNumberError i ≠ "Body is not defined." := by
  unfold notNumberError
  exact errAt_ne _ _ _ i 0 (by decide) (by decide)

theorem typeInvalidError_ne_body (i : Nat) :
    typeInvalidError i ≠ "Body is not defined." := by
  unfold typeInvalidError
  exact errAt_ne _ _ _ i 0 (by decide) (by decide)

theorem nameUndefinedError_ne_unique (i : Nat) :
    nameUndefinedError i ≠ "Attribute Name is not unique." := by
  unfold nameUndefinedError
  exact errAt_ne _ _ _ i 15 (by decide) (by decide)

theorem valueUndefinedError_ne_unique (i : Nat) :
    valueUndefinedError i ≠ "Attribute Name is not unique." := by
  unfold valueUndefinedError
  exact errAt_ne _ _ _ i 10 (by decide) (by decide)

theorem notNumberError_ne_unique (i : Nat) :
    notNumberError i ≠ "Attribute Name is not unique." := by
  unfold notNumberError
  exact errAt_ne _ _ _ i 10 (by decide) (by decide)

theorem typeInvalidError_ne_unique (i : Nat) :
    typeInvalidError i ≠ "Attribute Name is not unique." := by
  unfold typeInvalidError
  exact errAt_ne _ _ _ i 10 (by decide) (by decide)

theorem mem_claimAttrErrors {s : String} {i : Nat} {a : SqsMessageAttribute}
    (h : s ∈ claimAttrErrors i a) :
    s = nameUndefinedError i ∨ s = valueUndefinedError i ∨
      s = notNumberError i ∨ s = typeInvalidError i := by
  unfold claimAttrErrors at h
  simp only [List.mem_append] at h
  rcases h with (h | h) | h
  · split at h <;> simp_all
  · split at h
    · simp_all
    · split at h <;> simp_all
  · split at h <;> simp_all

theorem body_not_mem_claimAttrErrors (i : Nat) (a : SqsMessageAttribute) :
    "Body is not defined." ∉ claimAttrErrors i a := by
  intro h
  rcases mem_claimAttrErrors h with h | h | h | h
  · exact nameUndefinedError_ne_body i h.symm
  · exact valueUndefinedError_ne_body i h.symm
  · exact notNumberError_ne_body i h.symm
  · exact typeInvalidError_ne_body i h.symm

theorem unique_not_mem_claimAttrErrors (i : Nat) (a : SqsMessageAttribute) :
    "Attribute Name is not unique." ∉ claimAttrErrors i a := by
  intro h
  rcases mem_claimAttrErrors h with h | h | h | h
  · exact nameUndefinedError_ne_unique i h.symm
  · exact valueUndefinedError_ne_unique i h.symm
  · exact notNumberError_ne_unique i h.symm
  · exact typeInvalidError_ne_unique i h.symm

theorem body_not_mem_attrPart (m : SqsMessage) :
    "Body is not defined." ∉ m.attributes.enum.bind (fun p => claimAttrErrors p.1 p.2) := by
  intro h
  obtain ⟨p, _, hmem⟩ := List.mem_bind.mp h
  exact body_not_mem_claimAttrErrors p.1 p.2 hmem

theorem unique_not_mem_attrPart (m : SqsMessage) :
    "Attribute Name is not unique." ∉
      m.attributes.enum.bind (fun p => claimAttrErrors p.1 p.2) := by
  intro h
  obtain ⟨p, _, hmem⟩ := List.mem_bind.mp h
  exact unique_not_mem_claimAttrErrors p.1 p.2 hmem

/-! ## Claim theorems: validation -/

/-- C1: for every message, `validateMessage` checks each attribute in list
order and independently — empty name, empty value (skipping the numeric
check), a `Number`-typed value that does not parse as a numeric literal, and a
type outside `{String, Number, Binary}` each append their error string with
the attribute's zero-based index — and the per-attribute errors appear in
ascending position order matching the input list. -/
theorem validateMessage_attribute_checks (m : SqsMessage) :
    collectErrors m =
      (if m.body = "" then ["Body is not defined."] else [])
      ++ (if isPropertyUnique (fun a => a.name) m.attributes then []
          else ["Attribute Name is not unique."])
      ++ m.attributes.enum.bind (fun p => claimAttrErrors p.1 p.2)
    ∧ validateMessage m =
        (if collectErrors m = [] then none else some (collectErrors m))
    ∧ m.attributes.enum.map Prod.fst = List.range m.attributes.length := by
  refine ⟨collectErrors_eq m, ?_, List.enum_map_fst m.attributes⟩
  unfold validateMessage
  by_cases h : collectErrors m = [] <;> simp [h]

/-- C2 (amended): for every message whose stored body is the empty string,
`validateMessage` returns an error list containing `"Body is not defined."`
exactly once. -/
theorem validateMessage_empty_body_error (m : SqsMessage) (h : m.body = "") :
    ∃ errs, validateMessage m = some errs ∧
      errs.count "Body is not defined." = 1 := by
  have hc := collectErrors_eq m
  rw [if_pos h] at hc
  have hne : collectErrors m ≠ [] := by rw [hc]; simp
  refine ⟨collectErrors m, ?_, ?_⟩
  · unfold validateMessage
    rw [if_pos hne]
  · rw [hc]
    have h2 : List.count "Body is not defined."
        ((if isPropertyUnique (fun a => a.name) m.attributes then []
          else ["Attribute Name is not unique."]) : List String) = 0 := by
      split
      · rfl
      · decide
    have h3 : List.count "Body is not defined."
        (m.attributes.enum.bind (fun p => claimAttrErrors p.1 p.2)) = 0 :=
      List.count_eq_zero.mpr (body_not_mem_attrPart m)
    simp [List.count_append, h2, h3]

/-- C6: for every message with two attributes sharing a name, the result of
`validateMessage` contains `"Attribute Name is not unique."` exactly once, no
matter how many duplicates exist; with pairwise-distinct names, that error is
absent from any returned error list. -/
theorem validateMessage_unique_name_error (m : SqsMessage) :
    (¬ (m.attributes.map (fun a => a.name)).Nodup →
      ∃ errs, validateMessage m = some errs ∧
        errs.count "Attribute Name is not unique." = 1)
    ∧ ((m.attributes.map (fun a => a.name)).Nodup →
      ∀ errs, validateMessage m = some errs →
        "Attribute Name is not unique." ∉ errs) := by
  constructor
  · intro hdup
    have hfalse : ¬ isPropertyUnique (fun a => a.name) m.attributes = true :=
      fun hb => hdup ((isPropertyUnique_name_iff m.attributes).mp hb)
    have hc := collectErrors_eq m
    rw [if_neg hfalse] at hc
    have hne : collectErrors m ≠ [] := by
      rw [hc]
      intro hcontra
      rcases List.append_eq_nil.mp hcontra with ⟨h12, -⟩
      rcases List.append_eq_nil.mp h12 with ⟨-, h3⟩
      exact List.cons_ne_nil _ _ h3
    refine ⟨collectErrors m, ?_, ?_⟩
    · unfold validateMessage
      rw [if_pos hne]
    · rw [hc]
      have h1 : List.count "Attribute Name is not unique."
          ((if m.body = "" then ["Body is not defined."] else []) : List String) = 0 := by
        split
        · decide
        · rfl
      have h3 : List.count "Attribute Name is not unique."
          (m.attributes.enum.bind (fun p => claimAttrErrors p.1 p.2)) = 0 :=
        List.count_eq_zero.mpr (unique_not_mem_attrPart m)
      simp [List.count_append, h1, h3]
  · intro hnodup errs herrs
    have htrue : isPropertyUnique (fun a => a.name) m.attributes = true :=
      (isPropertyUnique_name_iff m.attributes).mpr hnodup
    have hc := collectErrors_eq m
    rw [if_pos htrue] at hc
    have herrseq : errs = collectErrors m := by
      unfold validateMessage at herrs
      by_cases hne : collectErrors m ≠ []
      · rw [if_pos hne] at herrs
        exact (Option.some.inj herrs).symm
      · rw [if_neg hne] at herrs
        exact absurd herrs (by simp)
    rw [herrseq, hc]
    intro hmem
    rcases List.mem_append.mp hmem with hmem2 | hmem2
    · rcases List.mem_append.mp hmem2 with hmem3 | hmem3
      · revert hmem3
        split
        · intro h4
          simp only [List.mem_singleton] at h4
          exact absurd h4.symm (by decide)
        · intro h4
          simp at h4
      · simp at hmem3
    · exact unique_not_mem_attrPart m hmem2

/-- C9: `isPropertyUnique` is true exactly when the selected field's values
are pairwise distinct (true for the empty list), and the boolean result is
invariant under permutation of the input list. -/
theorem isPropertyUnique_pairwise_distinct {α β : Type} [DecidableEq β]
    (f : α → β) (l : List α) :
    (isPropertyUnique f l = true ↔ (l.map f).Pairwise (fun x y => x ≠ y))
    ∧ isPropertyUnique f ([] : List α) = true
    ∧ ∀ l2 : List α, l.Perm l2 → isPropertyUnique f l = isPropertyUnique f l2 := by
  refine ⟨isPropertyUnique_iff_nodup f l, rfl, ?_⟩
  intro l2 hperm
  have h1 := isPropertyUnique_iff_nodup f l
  have h2 := isPropertyUnique_iff_nodup f l2
  have htrans : (l.map f).Nodup ↔ (l2.map f).Nodup := (hperm.map f).nodup_iff
  rcases Bool.eq_false_or_eq_true (isPropertyUnique f l) with hb1 | hb1 <;>
    rcases Bool.eq_false_or_eq_true (isPropertyUnique f l2) with hb2 | hb2 <;>
    simp_all

/-- Witness for C9 at concrete inputs. -/
theorem isPropertyUnique_pairwise_distinct_witness :
    isPropertyUnique (fun n : Nat => n) [1, 2] =
      isPropertyUnique (fun n : Nat => n) [2, 1] :=
  (isPropertyUnique_pairwise_distinct (fun n : Nat => n) [1, 2]).2.2 [2, 1]
    (by decide)

/-! ## The request builder (`MessageUtils.toRequest`) -/

/-- `SQS.MessageAttributeValue`: the wire record for one attribute (only the
fields the source sets are modelled; absent fields are `none`). -/
structure MessageAttributeValue where
  DataType : String
  StringValue : Option String
  BinaryValue : Option String
deriving DecidableEq

/-- `SQS.SendMessageRequest`: the three-part send-request record.  The
`MessageAttributes` object is modelled as an insertion-ordered association
list. -/
structure SendMessageRequest where
  QueueUrl : String
  MessageBody : String
  MessageAttributes : List (String × MessageAttributeValue)
deriving DecidableEq

/-- The `mapAttribute` closure of `toRequest`.  The `default:` branch throws
(`Could not map unknown attribute type`), modelled as `none`. -/
def mapAttribute (a : SqsMessageAttribute) : Option MessageAttributeValue :=
  if a.type = "String" ∨ a.type = "Number" then
    some { DataType := a.type, StringValue := some a.value, BinaryValue := none }
  else if a.type = "Binary" then
    some { DataType := a.type, StringValue := none, BinaryValue := some a.value }
  else none

/-- JS object spread-and-set `{...map, [k]: v}` on an insertion-ordered
association list: replaces the value in place if the key exists, otherwise
appends the pair. -/
def setKey (map : List (String × MessageAttributeValue)) (k : String)
    (v : MessageAttributeValue) : List (String × MessageAttributeValue) :=
  if map.any (fun p => p.1 == k) then
    map.map (fun p => if p.1 = k then (k, v) else p)
  else map ++ [(k, v)]

/-- One step of the `reduce` building `MessageAttributes`; a `none`
accumulator models an exception already thrown. -/
def buildMapStep (acc : Option (List (String × MessageAttributeValue)))
    (a : SqsMessageAttribute) : Option (List (String × MessageAttributeValue)) :=
  match acc, mapAttribute a with
  | some m, some v => some (setKey m a.name v)
  | _, _ => none

/-- The `message.attributes.reduce(...)` of `toRequest`. -/
def buildMap (attrs : List SqsMessageAttribute) :
    Option (List (String × MessageAttributeValue)) :=
  attrs.foldl buildMapStep (some [])

/-- `MessageUtils.toRequest`; `none` models the thrown mapping error. -/
def toRequest (queryUrl : String) (message : SqsMessage) : Option SendMessageRequest :=
  (buildMap message.attributes).map (fun m =>
    { QueueUrl := queryUrl, MessageBody := message.body, MessageAttributes := m })

/-- JS property lookup on the association-list model of the attribute map. -/
def lookupKey (map : List (String × MessageAttributeValue)) (k : String) :
    Option MessageAttributeValue :=
  (map.find? (fun p => p.1 == k)).map (fun p => p.2)

/-- The wire record per attribute as the claim states it: `String` or
`Number` carry the type tag and the value as a string; `Binary` carries the
type tag and the value as the binary payload. -/
def wireRecord (a : SqsMessageAttribute) : MessageAttributeValue :=
  if a.type = "String" ∨ a.type = "Number" then
    { DataType := a.type, StringValue := some a.value, BinaryValue := none }
  else if a.type = "Binary" then
    { DataType := a.type, StringValue := none, BinaryValue := some a.value }
  else { DataType := a.type, StringValue := none, BinaryValue := none }

/-! ## Lemmas: validated messages map cleanly -/

theorem validateMessage_none_iff (m : SqsMessage) :
    validateMessage m = none ↔ collectErrors m = [] := by
  unfold validateMessage
  by_cases h : collectErrors m = [] <;> simp [h]

theorem mem_enumFrom_of_mem {α : Type} {l : List α} {a : α} (h : a ∈ l) :
    ∀ n : Nat, ∃ i : Nat, (i, a) ∈ l.enumFrom n := by
  induction l with
  | nil => cases h
  | cons x xs ih =>
    intro n
    rcases List.mem_cons.mp h with rfl | h2
    · exact ⟨n, by simp [List.enumFrom]⟩
    · obtain ⟨i, hi⟩ := ih h2 (n + 1)
      exact ⟨i, by simp [List.enumFrom, hi]⟩

theorem mem_enum_of_mem {α : Type} {l : List α} {a : α} (h : a ∈ l) :
    ∃ i : Nat, (i, a) ∈ l.enum :=
  mem_enumFrom_of_mem h 0

/-- An empty per-attribute error list forces a catalog type. -/
theorem claimAttrErrors_nil_typeOk {i : Nat} {a : SqsMessageAttribute}
    (h : claimAttrErrors i a = []) :
    a.type = "String" ∨ a.type = "Number" ∨ a.type = "Binary" := by
  unfold claimAttrErrors at h
  rcases List.append_eq_nil.mp h with ⟨-, h3⟩
  revert h3
  split
  · intro _
    assumption
  · intro h3
    exact absurd h3 (List.cons_ne_nil _ _)

/-- A clean validation run makes every attribute type legal and the names
pairwise distinct. -/
theorem collectErrors_nil_facts {m : SqsMessage} (h : collectErrors m = []) :
    (∀ a ∈ m.attributes, a.type = "String" ∨ a.type = "Number" ∨ a.type = "Binary")
    ∧ (m.attributes.map (fun a => a.name)).Nodup := by
  rw [collectErrors_eq m] at h
  rcases List.append_eq_nil.mp h with ⟨h12, hbind⟩
  rcases List.append_eq_nil.mp h12 with ⟨-, huniq⟩
  constructor
  · intro a ha
    obtain ⟨i, hi⟩ := mem_enum_of_mem ha
    exact claimAttrErrors_nil_typeOk (List.bind_eq_nil.mp hbind (i, a) hi)
  · by_cases hu : isPropertyUnique (fun a => a.name) m.attributes = true
    · exact (isPropertyUnique_name_iff m.attributes).mp hu
    · rw [if_neg hu] at huniq
      exact absurd huniq (List.cons_ne_nil _ _)

theorem mapAttribute_eq_wireRecord {a : SqsMessageAttribute}
    (h : a.type = "String" ∨ a.type = "Number" ∨ a.type = "Binary") :
    mapAttribute a = some (wireRecord a) := by
  unfold mapAttribute wireRecord
  rcases h with h | h | h <;> simp [h]

theorem setKey_of_fresh {map : List (String × MessageAttributeValue)} {k : String}
    (v : MessageAttributeValue) (h : ∀ p ∈ map, p.1 ≠ k) :
    setKey map k v = map ++ [(k, v)] := by
  unfold setKey
  rw [if_neg]
  intro hany
  obtain ⟨p, hp, hpk⟩ := List.any_eq_true.mp hany
  exact h p hp (by simpa using hpk)

theorem buildMap_fold_of_validated :
    ∀ (attrs : List SqsMessageAttribute)
      (acc : List (String × MessageAttributeValue)),
      (∀ a ∈ attrs, a.type = "String" ∨ a.type = "Number" ∨ a.type = "Binary") →
      (∀ a ∈ attrs, ∀ p ∈ acc, p.1 ≠ a.name) →
      (attrs.map (fun a => a.name)).Nodup →
      attrs.foldl buildMapStep (some acc) =
        some (acc ++ attrs.map (fun a => (a.name, wireRecord a))) := by
  intro attrs
  induction attrs with
  | nil => intro acc _ _ _; simp
  | cons a rest ih =>
    intro acc htype hfresh hnodup
    have hstep : buildMapStep (some acc) a = some (acc ++ [(a.name, wireRecord a)]) := by
      unfold buildMapStep
      rw [mapAttribute_eq_wireRecord (htype a (by simp))]
      show some (setKey acc a.name (wireRecord a)) = _
      rw [setKey_of_fresh _ (fun p hp => hfresh a (by simp) p hp)]
    rw [List.foldl_cons, hstep]
    have hnodup2 : (rest.map (fun a => a.name)).Nodup := by
      simp only [List.map_cons, List.nodup_cons] at hnodup
      exact hnodup.2
    have hnotin : a.name ∉ rest.map (fun a => a.name) := by
      simp only [List.map_cons, List.nodup_cons] at hnodup
      exact hnodup.1
    have hfresh2 : ∀ b ∈ rest, ∀ p ∈ acc ++ [(a.name, wireRecord a)], p.1 ≠ b.name := by
      intro b hb p hp
      rcases List.mem_append.mp hp with hp2 | hp2
      · exact hfresh b (by simp [hb]) p hp2
      · simp only [List.mem_singleton] at hp2
        subst hp2
        intro hcontra
        apply hnotin
        have heq : a.name = b.name := hcontra
        rw [heq]
        exact List.mem_map_of_mem (fun a => a.name) hb
    rw [ih (acc ++ [(a.name, wireRecord a)]) (fun b hb => htype b (by simp [hb]))
      hfresh2 hnodup2]
    simp

theorem buildMap_of_validated {attrs : List SqsMessageAttribute}
    (htype : ∀ a ∈ attrs, a.type = "String" ∨ a.type = "Number" ∨ a.type = "Binary")
    (hnodup : (attrs.map (fun a => a.name)).Nodup) :
    buildMap attrs = some (attrs.map (fun a => (a.name, wireRecord a))) := by
  unfold buildMap
  rw [buildMap_fold_of_validated attrs [] htype (by intro a _ p hp; cases hp) hnodup]
  simp

theorem lookupKey_map_of_nodup :
    ∀ (attrs : List SqsMessageAttribute),
      (attrs.map (fun a => a.name)).Nodup →
      ∀ a ∈ attrs,
        lookupKey (attrs.map (fun b => (b.name, wireRecord b))) a.name =
          some (wireRecord a) := by
  intro attrs
  induction attrs with
  | nil => intro _ a ha; cases ha
  | cons b rest ih =>
    intro hnodup a ha
    simp only [List.map_cons, List.nodup_cons] at hnodup
    by_cases hbk : b.name = a.name
    · have hab : a = b := by
        rcases List.mem_cons.mp ha with rfl | ha2
        · rfl
        · exact absurd (hbk ▸ List.mem_map_of_mem (fun a => a.name) ha2) hnodup.1
      subst hab
      unfold lookupKey
      simp [List.find?]
    · have ha2 : a ∈ rest := by
        rcases List.mem_cons.mp ha with rfl | ha2
        · exact absurd rfl hbk
        · exact ha2
      have := ih hnodup.2 a ha2
      unfold lookupKey at this ⊢
      simp only [List.map_cons, List.find?]
      rw [show ((b.name == a.name) = false) from beq_eq_false_iff_ne.mpr hbk]
      exact this

/-! ## Claim theorems: request building -/

/-- C4: a message that passed validation (`validateMessage` returns
`undefined`) can never reach the unknown-attribute-type failure branch of
`toRequest`: the request is always built. -/
theorem toRequest_no_failure_after_validation (queryUrl : String) (m : SqsMessage)
    (h : validateMessage m = none) : (toRequest queryUrl m).isSome = true := by
  obtain ⟨htype, hnodup⟩ := collectErrors_nil_facts ((validateMessage_none_iff m).mp h)
  unfold toRequest
  rw [buildMap_of_validated htype hnodup]
  rfl

/-- Witness for C4 at a concrete validated message. -/
theorem toRequest_no_failure_after_validation_witness :
    (toRequest "https://queue.example/q"
      { id := "1", body := "hello",
        attributes := [{ id := "2", name := "a", type := "String", value := "x" }],
        errors := none }).isSome = true :=
  toRequest_no_failure_after_validation _ _ (by decide)

/-- C5: for every queue endpoint and validated message, `toRequest` builds the
three-part record — the endpoint, the body as stored (already formatted), and
the attribute map keyed by attribute name — where every `String`/`Number`
attribute maps to a wire record with a `StringValue` and every `Binary`
attribute to one with a `BinaryValue` (`wireRecord`). -/
theorem toRequest_three_part_shape (queryUrl : String) (m : SqsMessage)
    (h : validateMessage m = none) :
    ∃ req, toRequest queryUrl m = some req ∧
      req.QueueUrl = queryUrl ∧
      req.MessageBody = m.body ∧
      req.MessageAttributes = m.attributes.map (fun a => (a.name, wireRecord a)) ∧
      ∀ a ∈ m.attributes,
        lookupKey req.MessageAttributes a.name = some (wireRecord a) := by
  obtain ⟨htype, hnodup⟩ := collectErrors_nil_facts ((validateMessage_none_iff m).mp h)
  refine ⟨{ QueueUrl := queryUrl, MessageBody := m.body,
            MessageAttributes := m.attributes.map (fun a => (a.name, wireRecord a)) },
    ?_, rfl, rfl, rfl, ?_⟩
  · unfold toRequest
    rw [buildMap_of_validated htype hnodup]
    rfl
  · exact lookupKey_map_of_nodup m.attributes hnodup

/-- Witness for C5: the round-trip example of the spec, with attributes
`a : String = "x"` and `b : Number = "5"`. -/
theorem toRequest_three_part_shape_witness :
    ∃ req, toRequest "https://queue.example/q"
        { id := "1", body := "hello",
          attributes :=
            [{ id := "2", name := "a", type := "String", value := "x" },
             { id := "3", name := "b", type := "Number", value := "5" }],
          errors := none } = some req ∧
      req.QueueUrl = "https://queue.example/q" ∧
      req.MessageBody = "hello" ∧
      req.MessageAttributes =
        [{ id := "2", name := "a", type := "String", value := "x" },
         { id := "3", name := "b", type := "Number", value := "5" }].map
          (fun a => (a.name, wireRecord a)) ∧
      ∀ a ∈ [({ id := "2", name := "a", type := "String", value := "x" } :
              SqsMessageAttribute),
             { id := "3", name := "b", type := "Number", value := "5" }],
        lookupKey req.MessageAttributes a.name = some (wireRecord a) :=
  toRequest_three_part_shape "https://queue.example/q" _ (by decide)

/-! ## A JSON model for `JSON.parse` / `JSON.stringify(·, null, 4)`

Modelled from the spec: `formatBody` "attempts to parse [the text] as a JSON
document and, on success, re-serializes it with 4-space indentation"; the two
JS builtins are missing from `src/`, so they are modelled here by an explicit
JSON value type, a pretty-printer matching `JSON.stringify(v, null, 4)`, and
a recursive-descent parser.  The model restricts JSON numbers to integer
literals and treats string escapes loosely (only `\"` and `\\` are produced,
any escaped character is accepted literally); both restrictions only narrow
which bodies take the pretty-printing path, never the claims proved here. -/

inductive Json : Type where
  | null : Json
  | bool : Bool → Json
  | num : Int → Json
  | str : String → Json
  | arr : List Json → Json
  | obj : List (String × Json) → Json

/-- The decimal digit characters. -/
def digitChar : Nat → Char
  | 0 => '0' | 1 => '1' | 2 => '2' | 3 => '3' | 4 => '4'
  | 5 => '5' | 6 => '6' | 7 => '7' | 8 => '8' | _ => '9'

/-- Numeric value of a digit character. -/
def digitVal (c : Char) : Nat := c.toNat - 48

/-- Decimal digits of a natural number, most significant first. -/
def natChars (n : Nat) : List Char :=
  if h : n < 10 then [digitChar n]
  else natChars (n / 10) ++ [digitChar (n % 10)]
decreasing_by
  exact Nat.div_lt_self (by omega) (by omega)

/-- Decimal representation of an integer. -/
def intChars (n : Int) : List Char :=
  if n < 0 then '-' :: natChars n.natAbs else natChars n.natAbs

/-- JSON string escaping: only `"` and `\` need escapes in this model. -/
def escapeChars : List Char → List Char
  | [] => []
  | c :: r => (if c = '"' ∨ c = '\\' then ['\\', c] else [c]) ++ escapeChars r

/-- A quoted JSON string literal. -/
def quoteChars (s : String) : List Char :=
  '"' :: (escapeChars s.data ++ ['"'])

/-- The 4-space indentation prefix at nesting depth `ind`. -/
def indentChars (ind : Nat) : List Char :=
  List.replicate (4 * ind) ' '

mutual
/-- `JSON.stringify(v, null, 4)` on one value at nesting depth `ind`. -/
def prettyVal : Nat → Json → List Char
  | _, .null => ['n', 'u', 'l', 'l']
  | _, .bool true => ['t', 'r', 'u', 'e']
  | _, .bool false => ['f', 'a', 'l', 's', 'e']
  | _, .num n => intChars n
  | _, .str s => quoteChars s
  | _, .arr [] => ['[', ']']
  | ind, .arr (x :: xs) =>
    '[' :: '\n' :: (prettyItems (ind + 1) x xs ++ '\n' :: (indentChars ind ++ [']']))
  | _, .obj [] => ['{', '}']
  | ind, .obj ((k, v) :: ps) =>
    '{' :: '\n' :: (prettyFields (ind + 1) k v ps ++ '\n' :: (indentChars ind ++ ['}']))
termination_by ind v => sizeOf v
decreasing_by all_goals (simp_wf <;> omega)

/-- The comma-and-newline separated, indented items of a non-empty array. -/
def prettyItems : Nat → Json → List Json → List Char
  | ind, x, [] => indentChars ind ++ prettyVal ind x
  | ind, x, y :: ys =>
    indentChars ind ++ prettyVal ind x ++ ',' :: '\n' :: prettyItems ind y ys
termination_by ind x xs => sizeOf x + sizeOf xs
decreasing_by all_goals (simp_wf <;> omega)

/-- The fields of a non-empty object, each as `"key": value`. -/
def prettyFields : Nat → String → Json → List (String × Json) → List Char
  | ind, k, v, [] => indentChars ind ++ (quoteChars k ++ ':' :: ' ' :: prettyVal ind v)
  | ind, k, v, (k2, v2) :: qs =>
    indentChars ind ++ (quoteChars k ++ ':' :: ' ' :: prettyVal ind v)
      ++ ',' :: '\n' :: prettyFields ind k2 v2 qs
termination_by ind k v ps => sizeOf v + sizeOf ps
decreasing_by all_goals (simp_wf <;> omega)
end

/-- Skips JSON whitespace. -/
def skipWs (l : List Char) : List Char := l.dropWhile isWsChar

/-- Consumes an exact character sequence. -/
def dropExact : List Char → List Char → Option (List Char)
  | [], l => some l
  | c :: cs, d :: l => if d = c then dropExact cs l else none
  | _ :: _, [] => none

/-- Parses the remainder of a string literal after the opening quote:
characters up to an unescaped closing quote, `\c` taken as the literal `c`. -/
def parseStringRest : List Char → Option (List Char × List Char)
  | [] => none
  | c :: r =>
    if c = '"' then some ([], r)
    else if c = '\\' then
      match r with
      | [] => none
      | d :: r2 => (parseStringRest r2).map (fun q => (d :: q.1, q.2))
    else (parseStringRest r).map (fun q => (c :: q.1, q.2))

/-- Parses a non-empty run of decimal digits as a natural number. -/
def parseNat (l : List Char) : Option (Nat × List Char) :=
  let ds := l.takeWhile isDigitChar
  if ds.isEmpty then none
  else some (ds.foldl (fun a c => a * 10 + digitVal c) 0, l.dropWhile isDigitChar)

mutual
/-- The JSON value parser (fuel-indexed recursive descent). -/
def parseVal : Nat → List Char → Option (Json × List Char)
  | 0, _ => none
  | fuel + 1, input =>
    match skipWs input with
    | [] => none
    | c :: r =>
      if c = 'n' then (dropExact ['u', 'l', 'l'] r).map (fun r2 => (Json.null, r2))
      else if c = 't' then (dropExact ['r', 'u', 'e'] r).map (fun r2 => (Json.bool true, r2))
      else if c = 'f' then
        (dropExact ['a', 'l', 's', 'e'] r).map (fun r2 => (Json.bool false, r2))
      else if c = '"' then (parseStringRest r).map (fun q => (Json.str (String.mk q.1), q.2))
      else if c = '[' then
        if (skipWs r).head? = some ']' then some (Json.arr [], (skipWs r).tail)
        else (parseItems fuel r).map (fun q => (Json.arr q.1, q.2))
      else if c = '{' then
        if (skipWs r).head? = some '}' then some (Json.obj [], (skipWs r).tail)
        else (parseFields fuel r).map (fun q => (Json.obj q.1, q.2))
      else if c = '-' then (parseNat r).map (fun q => (Json.num (-(q.1 : Int)), q.2))
      else if isDigitChar c then
        (parseNat (c :: r)).map (fun q => (Json.num ((q.1 : Nat) : Int), q.2))
      else none

/-- Parses the items of a non-empty array up to the closing bracket. -/
def parseItems : Nat → List Char → Option (List Json × List Char)
  | 0, _ => none
  | fuel + 1, input =>
    match parseVal fuel input with
    | none => none
    | some (x, r) =>
      if (skipWs r).head? = some ',' then
        (parseItems fuel (skipWs r).tail).map (fun q => (x :: q.1, q.2))
      else if (skipWs r).head? = some ']' then some ([x], (skipWs r).tail)
      else none

/-- Parses the fields of a non-empty object up to the closing brace. -/
def parseFields : Nat → List Char → Option (List (String × Json) × List Char)
  | 0, _ => none
  | fuel + 1, input =>
    match skipWs input with
    | [] => none
    | c :: r =>
      if c = '"' then
        match parseStringRest r with
        | none => none
        | some (k, r2) =>
          if (skipWs r2).head? = some ':' then
            match parseVal fuel (skipWs r2).tail with
            | none => none
            | some (v, r4) =>
              if (skipWs r4).head? = some ',' then
                (parseFields fuel (skipWs r4).tail).map
                  (fun q => ((String.mk k, v) :: q.1, q.2))
              else if (skipWs r4).head? = some '}' then
                some ([(String.mk k, v)], (skipWs r4).tail)
              else none
          else none
      else none
end

/-- `JSON.parse`: a full-input parse of a document. -/
def parseJson (s : String) : Option Json :=
  (parseVal (s.data.length + 1) s.data).bind
    (fun q => if (skipWs q.2).isEmpty then some q.1 else none)

/-- `JSON.stringify(v, null, 4)` as a string. -/
def stringifyJson (v : Json) : String :=
  String.mk (prettyVal 0 v)

/-- `MessageUtils.isJson`: first character `{` and last character `}`. -/
def isJson (text : String) : Bool :=
  text.data.head? == some '{' && text.data.getLast? == some '}'

/-- `MessageUtils.formatBody`: trim; if the text looks JSON-shaped, parse and
re-serialize with 4-space indentation; on parse failure (the `catch`) or a
non-JSON shape, return the trimmed text unchanged. -/
def formatBody (body : String) : String :=
  let text := trimStr body
  if isJson text then
    match parseJson text with
    | some obj => stringifyJson obj
    | none => text
  else text

/-! ## The seed importer (`MessageUtils.toMessage`) -/

/-- A raw seed record: an `unknown` value cast to `SqsMessage`, so every field
may be absent.  (Raw attribute records are modelled with the attribute type
itself; the validator only reads `name`, `type` and `value`, for which a
missing field behaves like the empty string.) -/
structure RawSeedItem where
  id : Option String
  body : Option String
  attributes : Option (List SqsMessageAttribute)
  errors : Option (List String)

/-- `MessageUtils.toMessage`, with the `Math.random`-based
`generateRandomId` supplied as a stream `gen` of generated identifiers (the
message takes `gen 0`, attribute `k` takes `gen (k + 1)`).  A missing `body`
makes `body.trim()` throw inside `formatBody`, and a missing `attributes`
list makes `validateMessage` throw when it dereferences
`message.attributes` (despite the `?? []` fallback used for the produced
attribute list); both exceptions are modelled as `none`. -/
def toMessage (gen : Nat → String) (item : RawSeedItem) : Option SqsMessage :=
  match item.body, item.attributes with
  | some b, some attrs =>
    some { id := gen 0,
           body := formatBody b,
           attributes := attrs.enum.map (fun p => { p.2 with id := gen (p.1 + 1) }),
           errors := validateMessage { id := item.id.getD "", body := b,
                                       attributes := attrs, errors := item.errors } }
  | _, _ => none

/-! ## Claim theorems: formatting pipeline and the seed importer -/

/-- Counterexample for C2 as stated: the whitespace body `" "` is empty after
formatting, yet `validateMessage` reports no error for it (the validator
checks the stored body, not the formatted one, and `" "` is truthy). -/
theorem empty_after_formatting_not_flagged_cex :
    formatBody " " = "" ∧
    validateMessage { id := "1", body := " ", attributes := [], errors := none } = none := by
  constructor
  · rfl
  · rfl

/-- Counterexample for C3 as stated: for the seed record with body `" "`, the
produced message carries `errors := none`, but running `validateMessage` on
the produced message itself (body formatted to `""`) reports
`"Body is not defined."` — so `toMessage` does not validate the produced
form. -/
theorem toMessage_not_validating_produced_cex :
    toMessage (fun _ => "0")
        { id := some "seed", body := some " ", attributes := some [], errors := none } =
      some { id := "0", body := "", attributes := [], errors := none } ∧
    validateMessage { id := "0", body := "", attributes := [], errors := none } =
      some ["Body is not defined."] := by
  constructor
  · rfl
  · rfl

/-- C3 (amended): the `errors` field of the message produced by `toMessage`
equals the result of `validateMessage` on the *raw* record — the raw body
before formatting and the raw attributes without the fresh identifiers — not
on the produced message. -/
theorem toMessage_validates_raw_record (gen : Nat → String) (item : RawSeedItem)
    (b : String) (attrs : List SqsMessageAttribute)
    (hb : item.body = some b) (ha : item.attributes = some attrs) :
    (toMessage gen item).map (fun msg => msg.errors) =
      some (validateMessage { id := item.id.getD "", body := b,
                              attributes := attrs, errors := item.errors }) := by
  unfold toMessage
  rw [hb, ha]
  rfl

/-- Witness for C3 (amended) at a concrete seed record. -/
theorem toMessage_validates_raw_record_witness :
    (toMessage (fun _ => "7")
        { id := some "seed", body := some " x ", attributes := some [], errors := none }).map
        (fun msg => msg.errors) =
      some (validateMessage { id := "seed", body := " x ",
                              attributes := [], errors := none }) :=
  toMessage_validates_raw_record (fun _ => "7") _ " x " [] rfl rfl

/-- C10: a raw seed record without an `attributes` list makes `toMessage`
fail with an exception instead of producing a message, because
`validateMessage` dereferences the raw record's attribute list
unconditionally — even when the body is present. -/
theorem toMessage_missing_attributes_throws (gen : Nat → String) (item : RawSeedItem)
    (b : String) (hb : item.body = some b) (ha : item.attributes = none) :
    toMessage gen item = none := by
  unfold toMessage
  rw [hb, ha]

/-- Witness for C10 at a concrete seed record. -/
theorem toMessage_missing_attributes_throws_witness :
    toMessage (fun _ => "3")
        { id := some "s", body := some "connection test", attributes := none,
          errors := none } = none :=
  toMessage_missing_attributes_throws (fun _ => "3") _ "connection test" rfl rfl

/-- Witness for C2 (amended) at a concrete message with empty body. -/
theorem validateMessage_empty_body_error_witness :
    ∃ errs, validateMessage { id := "1", body := "", attributes := [], errors := none } =
        some errs ∧ errs.count "Body is not defined." = 1 :=
  validateMessage_empty_body_error _ rfl

/-- Witness for C6 at concrete messages: three attributes sharing one name
yield the uniqueness error once; distinct names never yield it. -/
theorem validateMessage_unique_name_error_witness :
    (∃ errs, validateMessage
        { id := "1", body := "b",
          attributes :=
            [{ id := "1", name := "a", type := "String", value := "x" },
             { id := "2", name := "a", type := "String", value := "y" },
             { id := "3", name := "a", type := "String", value := "z" }],
          errors := none } = some errs ∧
      errs.count "Attribute Name is not unique." = 1)
    ∧ "Attribute Name is not unique." ∉ ["Body is not defined."] :=
  ⟨(validateMessage_unique_name_error
      { id := "1", body := "b",
        attributes :=
          [{ id := "1", name := "a", type := "String", value := "x" },
           { id := "2", name := "a", type := "String", value := "y" },
           { id := "3", name := "a", type := "String", value := "z" }],
        errors := none }).1 (by decide),
   (validateMessage_unique_name_error
      { id := "1", body := "",
        attributes :=
          [{ id := "1", name := "a", type := "String", value := "x" },
           { id := "2", name := "b", type := "String", value := "y" }],
        errors := none }).2 (by decide) ["Body is not defined."] (by decide)⟩

/-! ## Trim lemmas -/

theorem head_dropWhile_false (p : Char → Bool) :
    ∀ (l : List Char) (c : Char), (l.dropWhile p).head? = some c → p c = false := by
  intro l
  induction l with
  | nil => intro c hc; cases hc
  | cons x xs ih =>
    intro c hc
    by_cases hx : p x
    · rw [List.dropWhile_cons_of_pos hx] at hc
      exact ih c hc
    · rw [List.dropWhile_cons_of_neg hx] at hc
      simp only [List.head?_cons, Option.some.injEq] at hc
      subst hc
      cases hpx : p x
      · rfl
      · exact absurd hpx hx

theorem dropWhile_eq_self_of_head (p : Char → Bool) (l : List Char)
    (h : ∀ c, l.head? = some c → p c = false) : l.dropWhile p = l := by
  cases l with
  | nil => rfl
  | cons x xs =>
    exact List.dropWhile_cons_of_neg (by rw [h x rfl]; simp)

theorem trimChars_idem (l : List Char) : trimChars (trimChars l) = trimChars l := by
  unfold trimChars
  have hdrop : ((l.dropWhile isWsChar).rdropWhile isWsChar).dropWhile isWsChar =
      (l.dropWhile isWsChar).rdropWhile isWsChar := by
    apply dropWhile_eq_self_of_head
    intro c hc
    obtain ⟨s, hs⟩ := (List.rdropWhile_prefix isWsChar (l.dropWhile isWsChar))
    apply head_dropWhile_false isWsChar l c
    rw [← hs]
    cases hrd : (l.dropWhile isWsChar).rdropWhile isWsChar with
    | nil => rw [hrd] at hc; cases hc
    | cons d ds =>
      rw [hrd] at hc
      simp only [List.head?_cons, Option.some.injEq] at hc
      subst hc
      simp [List.head?_append, hrd]
  rw [hdrop]
  exact List.rdropWhile_idempotent _ _

theorem trimStr_idem (s : String) : trimStr (trimStr s) = trimStr s := by
  unfold trimStr
  exact congrArg String.mk (trimChars_idem s.data)

theorem trimChars_eq_self (l : List Char)
    (h1 : ∀ c, l.head? = some c → isWsChar c = false)
    (h2 : ∀ c, l.getLast? = some c → isWsChar c = false) : trimChars l = l := by
  unfold trimChars
  rw [dropWhile_eq_self_of_head isWsChar l h1]
  rw [List.rdropWhile_eq_self_iff]
  intro hl hp
  have := h2 (l.getLast hl) (List.getLast?_eq_getLast l hl ▸ rfl)
  rw [this] at hp
  cases hp

/-! ## Digit lemmas -/

theorem isDigitChar_elim {c : Char} (h : isDigitChar c = true) :
    c = '0' ∨ c = '1' ∨ c = '2' ∨ c = '3' ∨ c = '4' ∨
    c = '5' ∨ c = '6' ∨ c = '7' ∨ c = '8' ∨ c = '9' := by
  simp only [isDigitChar, Bool.or_eq_true, beq_iff_eq] at h
  tauto

theorem digit_facts {c : Char} (h : isDigitChar c = true) :
    isWsChar c = false ∧ c ≠ 'n' ∧ c ≠ 't' ∧ c ≠ 'f' ∧ c ≠ '"' ∧
    c ≠ '[' ∧ c ≠ '{' ∧ c ≠ '-' ∧ c ≠ ']' ∧ c ≠ '}' ∧ c ≠ ',' ∧ c ≠ ':' := by
  rcases isDigitChar_elim h with rfl | rfl | rfl | rfl | rfl | rfl | rfl | rfl | rfl | rfl <;>
    refine ⟨rfl, ?_⟩ <;> (repeat constructor) <;> decide

theorem digitChar_isDigit (n : Nat) : isDigitChar (digitChar n) = true := by
  unfold digitChar
  split <;> rfl

theorem digitVal_digitChar {n : Nat} (h : n < 10) : digitVal (digitChar n) = n := by
  interval_cases n <;> rfl

theorem natChars_ne_nil (n : Nat) : natChars n ≠ [] := by
  rw [natChars]
  split
  · simp
  · simp

theorem natChars_all_digits (n : Nat) : ∀ c ∈ natChars n, isDigitChar c = true := by
  induction n using Nat.strong_induction_on with
  | _ n ih =>
    rw [natChars]
    split
    · intro c hc
      simp only [List.mem_singleton] at hc
      subst hc
      exact digitChar_isDigit n
    · intro c hc
      rcases List.mem_append.mp hc with hc2 | hc2
      · exact ih (n / 10) (Nat.div_lt_self (by omega) (by omega)) c hc2
      · simp only [List.mem_singleton] at hc2
        subst hc2
        exact digitChar_isDigit (n % 10)

/-- The digit-accumulating fold of `parseNat`. -/
def digitsVal (l : List Char) : Nat :=
  l.foldl (fun a c => a * 10 + digitVal c) 0

theorem digitsVal_append_digit (l : List Char) (c : Char) :
    digitsVal (l ++ [c]) = digitsVal l * 10 + digitVal c := by
  unfold digitsVal
  rw [List.foldl_append]
  rfl

theorem digitsVal_natChars (n : Nat) : digitsVal (natChars n) = n := by
  induction n using Nat.strong_induction_on with
  | _ n ih =>
    rw [natChars]
    split
    · rename_i h
      show 0 * 10 + digitVal (digitChar n) = n
      rw [digitVal_digitChar h]
      omega
    · rename_i h
      rw [digitsVal_append_digit, ih (n / 10) (Nat.div_lt_self (by omega) (by omega)),
        digitVal_digitChar (Nat.mod_lt n (by omega))]
      omega

/-! ## Parsing a printed number -/

theorem takeWhile_digits_append (ds rest : List Char)
    (hd : ∀ c ∈ ds, isDigitChar c = true)
    (hr : ∀ c, rest.head? = some c → isDigitChar c = false) :
    (ds ++ rest).takeWhile isDigitChar = ds ∧
      (ds ++ rest).dropWhile isDigitChar = rest := by
  induction ds with
  | nil =>
    simp only [List.nil_append]
    cases rest with
    | nil => exact ⟨rfl, rfl⟩
    | cons c r =>
      have := hr c rfl
      constructor
      · rw [List.takeWhile_cons_of_neg (by rw [this]; simp)]
      · rw [List.dropWhile_cons_of_neg (by rw [this]; simp)]
  | cons d ds2 ih =>
    have hdd := hd d (by simp)
    obtain ⟨h1, h2⟩ := ih (fun c hc => hd c (by simp [hc]))
    constructor
    · rw [List.cons_append, List.takeWhile_cons_of_pos hdd, h1]
    · rw [List.cons_append, List.dropWhile_cons_of_pos hdd, h2]

theorem parseNat_round (n : Nat) (rest : List Char)
    (hr : ∀ c, rest.head? = some c → isDigitChar c = false) :
    parseNat (natChars n ++ rest) = some (n, rest) := by
  obtain ⟨h1, h2⟩ := takeWhile_digits_append (natChars n) rest (natChars_all_digits n) hr
  unfold parseNat
  rw [h1, h2]
  rw [if_neg (by simp [natChars_ne_nil n])]
  have : (natChars n).foldl (fun a c => a * 10 + digitVal c) 0 = n := digitsVal_natChars n
  rw [this]

/-! ## Whitespace-skipping lemmas -/

theorem skipWs_cons_not {c : Char} (h : isWsChar c = false) (l : List Char) :
    skipWs (c :: l) = c :: l := by
  unfold skipWs
  rw [List.dropWhile_cons_of_neg (by rw [h]; simp)]

theorem skipWs_cons_ws {c : Char} (h : isWsChar c = true) (l : List Char) :
    skipWs (c :: l) = skipWs l := by
  unfold skipWs
  rw [List.dropWhile_cons_of_pos h]

theorem skipWs_replicate_space (k : Nat) (l : List Char) :
    skipWs (List.replicate k ' ' ++ l) = skipWs l := by
  induction k with
  | zero => rfl
  | succ k ih =>
    rw [List.replicate_succ, List.cons_append, skipWs_cons_ws (by decide), ih]

theorem skipWs_indent (n : Nat) (l : List Char) :
    skipWs (indentChars n ++ l) = skipWs l :=
  skipWs_replicate_space (4 * n) l

theorem skipWs_newline (l : List Char) : skipWs ('\n' :: l) = skipWs l :=
  skipWs_cons_ws (by decide) l

/-! ## String-literal roundtrip -/

theorem parseStringRest_round :
    ∀ (l rest : List Char),
      parseStringRest (escapeChars l ++ ('"' :: rest)) = some (l, rest) := by
  intro l
  induction l with
  | nil =>
    intro rest
    show parseStringRest ('"' :: rest) = some ([], rest)
    unfold parseStringRest
    rw [if_pos rfl]
  | cons c l2 ih =>
    intro rest
    show parseStringRest
        ((if c = '"' ∨ c = '\\' then ['\\', c] else [c]) ++ escapeChars l2
          ++ ('"' :: rest)) = some (c :: l2, rest)
    by_cases hc : c = '"' ∨ c = '\\'
    · rw [if_pos hc]
      show parseStringRest ('\\' :: c :: (escapeChars l2 ++ ('"' :: rest))) =
        some (c :: l2, rest)
      unfold parseStringRest
      rw [if_neg (by decide), if_pos rfl]
      show Option.map (fun q => (c :: q.1, q.2))
        (parseStringRest (escapeChars l2 ++ ('"' :: rest))) = some (c :: l2, rest)
      rw [ih rest]
      rfl
    · rw [if_neg hc]
      push_neg at hc
      show parseStringRest (c :: (escapeChars l2 ++ ('"' :: rest))) =
        some (c :: l2, rest)
      unfold parseStringRest
      rw [if_neg hc.1, if_neg hc.2]
      show Option.map (fun q => (c :: q.1, q.2))
        (parseStringRest (escapeChars l2 ++ ('"' :: rest))) = some (c :: l2, rest)
      rw [ih rest]
      rfl

/-! ## Fuel accounting for the parser -/

mutual
/-- Fuel needed by `parseVal` on the printed form of a value. -/
def jsize : Json → Nat
  | .arr (x :: xs) => 1 + jitems x xs
  | .obj ((_, v) :: ps) => 1 + jfields v ps
  | _ => 1
termination_by v => sizeOf v
decreasing_by all_goals (simp_wf <;> omega)

/-- Fuel needed by `parseItems` on printed array items. -/
def jitems : Json → List Json → Nat
  | x, [] => 1 + jsize x
  | x, y :: ys => 1 + jsize x + jitems y ys
termination_by x xs => sizeOf x + sizeOf xs
decreasing_by all_goals (simp_wf <;> omega)

/-- Fuel needed by `parseFields` on printed object fields. -/
def jfields : Json → List (String × Json) → Nat
  | v, [] => 1 + jsize v
  | v, (_, v2) :: qs => 1 + jsize v + jfields v2 qs
termination_by v ps => sizeOf v + sizeOf ps
decreasing_by all_goals (simp_wf <;> omega)
end

theorem jsize_pos (v : Json) : 1 ≤ jsize v := by
  cases v with
  | arr xs => cases xs <;> simp [jsize]
  | obj ps =>
    cases ps with
    | nil => simp [jsize]
    | cons p ps2 => cases p; simp [jsize]
  | _ => simp [jsize]

theorem jitems_pos (x : Json) (xs : List Json) : 1 ≤ jitems x xs := by
  cases xs with
  | nil => simp [jitems]
  | cons y ys => simp only [jitems]; omega

theorem jfields_pos (v : Json) (ps : List (String × Json)) : 1 ≤ jfields v ps := by
  cases ps with
  | nil => simp [jfields]
  | cons q qs =>
    cases q
    simp only [jfields]
    omega

/-! ## Parser congruence under leading whitespace -/

theorem parseVal_congr_skipWs (fuel : Nat) {l1 l2 : List Char}
    (h : skipWs l1 = skipWs l2) : parseVal fuel l1 = parseVal fuel l2 := by
  cases fuel with
  | zero => rfl
  | succ f =>
    show parseVal (f + 1) l1 = parseVal (f + 1) l2
    simp only [parseVal]
    rw [h]

theorem parseItems_ws_head (fuel : Nat) (l : List Char) :
    parseItems fuel ('\n' :: l) = parseItems fuel l := by
  cases fuel with
  | zero => rfl
  | succ f =>
    show parseItems (f + 1) ('\n' :: l) = parseItems (f + 1) l
    simp only [parseItems]
    rw [parseVal_congr_skipWs f (skipWs_newline l)]

theorem parseFields_ws (fuel : Nat) {l1 l2 : List Char} (h : skipWs l1 = skipWs l2) :
    parseFields fuel l1 = parseFields fuel l2 := by
  cases fuel with
  | zero => rfl
  | succ f =>
    show parseFields (f + 1) l1 = parseFields (f + 1) l2
    simp only [parseFields]
    rw [h]

/-! ## Heads of printed values -/

theorem prettyVal_head_spec (ind : Nat) (v : Json) :
    ∃ c l2, prettyVal ind v = c :: l2 ∧ isWsChar c = false ∧ c ≠ ']' ∧ c ≠ '}' := by
  cases v with
  | null =>
    exact ⟨'n', ['u', 'l', 'l'], by simp [prettyVal], by decide, by decide, by decide⟩
  | bool b =>
    cases b
    · exact ⟨'f', ['a', 'l', 's', 'e'], by simp [prettyVal], by decide, by decide, by decide⟩
    · exact ⟨'t', ['r', 'u', 'e'], by simp [prettyVal], by decide, by decide, by decide⟩
  | num n =>
    have hpv : prettyVal ind (Json.num n) = intChars n := by simp [prettyVal]
    unfold intChars at hpv
    by_cases hn : n < 0
    · rw [if_pos hn] at hpv
      exact ⟨'-', natChars n.natAbs, hpv, by decide, by decide, by decide⟩
    · rw [if_neg hn] at hpv
      cases hnc : natChars n.natAbs with
      | nil => exact absurd hnc (natChars_ne_nil _)
      | cons c tl =>
        have hdig : isDigitChar c = true :=
          natChars_all_digits n.natAbs c (by rw [hnc]; simp)
        obtain ⟨hws, -, -, -, -, -, -, -, hne1, hne2, -⟩ := digit_facts hdig
        exact ⟨c, tl, by rw [hpv, hnc], hws, hne1, hne2⟩
  | str s =>
    exact ⟨'"', escapeChars s.data ++ ['"'], by simp [prettyVal, quoteChars],
      by decide, by decide, by decide⟩
  | arr xs =>
    cases xs with
    | nil => exact ⟨'[', [']'], by simp [prettyVal], by decide, by decide, by decide⟩
    | cons x xs2 =>
      exact ⟨'[', '\n' :: (prettyItems (ind + 1) x xs2 ++ '\n' :: (indentChars ind ++ [']'])),
        by simp [prettyVal], by decide, by decide, by decide⟩
  | obj ps =>
    cases ps with
    | nil => exact ⟨'{', ['}'], by simp [prettyVal], by decide, by decide, by decide⟩
    | cons p ps2 =>
      obtain ⟨k, v2⟩ := p
      exact ⟨'{', '\n' :: (prettyFields (ind + 1) k v2 ps2 ++ '\n' :: (indentChars ind ++ ['}'])),
        by simp [prettyVal], by decide, by decide, by decide⟩

/-- After whitespace, printed array items start with a character that closes
neither an array nor an object. -/
theorem skipWs_prettyItems (ind : Nat) (x : Json) (xs : List Json) (t : List Char) :
    ∃ c l2, skipWs (prettyItems ind x xs ++ t) = c :: l2 ∧
      isWsChar c = false ∧ c ≠ ']' ∧ c ≠ '}' := by
  obtain ⟨c, l2, hpv, hws, h1, h2⟩ := prettyVal_head_spec ind x
  cases xs with
  | nil =>
    refine ⟨c, l2 ++ t, ?_, hws, h1, h2⟩
    rw [show prettyItems ind x [] = indentChars ind ++ prettyVal ind x from by
      simp [prettyItems]]
    rw [List.append_assoc, skipWs_indent, hpv, List.cons_append, skipWs_cons_not hws]
  | cons y ys =>
    refine ⟨c, l2 ++ (',' :: '\n' :: prettyItems ind y ys ++ t), ?_, hws, h1, h2⟩
    rw [show prettyItems ind x (y :: ys) =
      indentChars ind ++ prettyVal ind x ++ ',' :: '\n' :: prettyItems ind y ys from by
      simp [prettyItems]]
    rw [show (indentChars ind ++ prettyVal ind x ++ ',' :: '\n' :: prettyItems ind y ys) ++ t =
      indentChars ind ++ (prettyVal ind x ++ (',' :: '\n' :: prettyItems ind y ys ++ t)) by
        simp [List.append_assoc]]
    rw [skipWs_indent, hpv, List.cons_append, skipWs_cons_not hws]

/-- After whitespace, printed object fields start with a quote. -/
theorem skipWs_prettyFields (ind : Nat) (k : String) (v : Json)
    (ps : List (String × Json)) (t : List Char) :
    ∃ l2, skipWs (prettyFields ind k v ps ++ t) = '"' :: l2 := by
  cases ps with
  | nil =>
    refine ⟨(escapeChars k.data ++ ['"']) ++ (':' :: ' ' :: prettyVal ind v ++ t), ?_⟩
    rw [show prettyFields ind k v [] =
      indentChars ind ++ (quoteChars k ++ ':' :: ' ' :: prettyVal ind v) from by
      simp [prettyFields]]
    rw [List.append_assoc, skipWs_indent]
    rw [show quoteChars k = '"' :: (escapeChars k.data ++ ['"']) from rfl]
    rw [show ('"' :: (escapeChars k.data ++ ['"']) ++ ':' :: ' ' :: prettyVal ind v) ++ t =
      '"' :: ((escapeChars k.data ++ ['"']) ++ (':' :: ' ' :: prettyVal ind v ++ t)) by
        simp [List.append_assoc]]
    rw [skipWs_cons_not (by decide)]
  | cons q qs =>
    obtain ⟨k2, v2⟩ := q
    refine ⟨(escapeChars k.data ++ ['"']) ++ (':' :: ' ' :: prettyVal ind v ++
      (',' :: '\n' :: prettyFields ind k2 v2 qs ++ t)), ?_⟩
    rw [show prettyFields ind k v ((k2, v2) :: qs) =
      indentChars ind ++ (quoteChars k ++ ':' :: ' ' :: prettyVal ind v)
        ++ ',' :: '\n' :: prettyFields ind k2 v2 qs from by simp [prettyFields]]
    rw [show (indentChars ind ++ (quoteChars k ++ ':' :: ' ' :: prettyVal ind v)
        ++ ',' :: '\n' :: prettyFields ind k2 v2 qs) ++ t =
      indentChars ind ++ ('"' :: ((escapeChars k.data ++ ['"']) ++
        (':' :: ' ' :: prettyVal ind v ++ (',' :: '\n' :: prettyFields ind k2 v2 qs ++ t)))) by
        simp [quoteChars, List.append_assoc]]
    rw [skipWs_indent, skipWs_cons_not (by decide)]

/-! ## Parse-of-print roundtrip -/

/-- The roundtrip property of one JSON value: parsing its printed form (at
any indentation, with any non-digit-leading remainder, with enough fuel)
returns the value and the remainder. -/
def ParseRound (v : Json) : Prop :=
  ∀ fuel ind rest, jsize v ≤ fuel →
    (∀ c, rest.head? = some c → isDigitChar c = false) →
    parseVal fuel (prettyVal ind v ++ rest) = some (v, rest)

theorem parseRound_null : ParseRound Json.null := by
  intro fuel ind rest hfuel _
  cases fuel with
  | zero => simp [jsize] at hfuel
  | succ f =>
    rw [show prettyVal ind Json.null ++ rest = 'n' :: 'u' :: 'l' :: 'l' :: rest from by
      simp [prettyVal]]
    simp only [parseVal]
    rw [skipWs_cons_not (by decide)]
    simp [dropExact]

theorem parseRound_bool (b : Bool) : ParseRound (Json.bool b) := by
  intro fuel ind rest hfuel _
  cases fuel with
  | zero => simp [jsize] at hfuel
  | succ f =>
    cases b
    · rw [show prettyVal ind (Json.bool false) ++ rest =
        'f' :: 'a' :: 'l' :: 's' :: 'e' :: rest from by simp [prettyVal]]
      simp only [parseVal]
      rw [skipWs_cons_not (by decide)]
      simp [dropExact]
    · rw [show prettyVal ind (Json.bool true) ++ rest =
        't' :: 'r' :: 'u' :: 'e' :: rest from by simp [prettyVal]]
      simp only [parseVal]
      rw [skipWs_cons_not (by decide)]
      simp [dropExact]

theorem parseRound_str (s : String) : ParseRound (Json.str s) := by
  intro fuel ind rest hfuel _
  cases fuel with
  | zero => simp [jsize] at hfuel
  | succ f =>
    rw [show prettyVal ind (Json.str s) ++ rest =
      '"' :: (escapeChars s.data ++ ('"' :: rest)) from by
        simp [prettyVal, quoteChars]]
    simp only [parseVal]
    rw [skipWs_cons_not (by decide)]
    simp only []
    simp only [reduceIte]
    rw [parseStringRest_round s.data rest]
    rfl

theorem parseRound_num (n : Int) : ParseRound (Json.num n) := by
  intro fuel ind rest hfuel hrest
  cases fuel with
  | zero => simp [jsize] at hfuel
  | succ f =>
    have hpv : prettyVal ind (Json.num n) = intChars n := by simp [prettyVal]
    by_cases hn : n < 0
    · rw [show prettyVal ind (Json.num n) ++ rest =
        '-' :: (natChars n.natAbs ++ rest) from by
          rw [hpv]; unfold intChars; rw [if_pos hn]; rfl]
      simp only [parseVal]
      rw [skipWs_cons_not (by decide)]
      simp only []
      rw [parseNat_round n.natAbs rest hrest]
      simp only [Option.map_some']
      have hval : -((n.natAbs : Nat) : Int) = n := by
        rw [Int.ofNat_natAbs_of_nonpos (by omega)]
        omega
      rw [hval]
      simp
    · cases hnc : natChars n.natAbs with
      | nil => exact absurd hnc (natChars_ne_nil _)
      | cons c tl =>
        have hdig : isDigitChar c = true :=
          natChars_all_digits n.natAbs c (by rw [hnc]; simp)
        obtain ⟨hws, hn1, hn2, hn3, hn4, hn5, hn6, hn7, -, -, -, -⟩ := digit_facts hdig
        rw [show prettyVal ind (Json.num n) ++ rest = c :: (tl ++ rest) from by
          rw [hpv]; unfold intChars; rw [if_neg hn, hnc]; rfl]
        simp only [parseVal]
        rw [skipWs_cons_not hws]
        simp only []
        rw [if_neg hn1, if_neg hn2, if_neg hn3, if_neg hn4, if_neg hn5, if_neg hn6,
          if_neg hn7, if_pos hdig]
        rw [show c :: (tl ++ rest) = natChars n.natAbs ++ rest from by rw [hnc]; rfl]
        rw [parseNat_round n.natAbs rest hrest]
        simp only [Option.map_some']
        have hval : ((n.natAbs : Nat) : Int) = n := by
          rw [Int.natAbs_of_nonneg (by omega)]
        rw [hval]

theorem parseRound_arr_nil : ParseRound (Json.arr []) := by
  intro fuel ind rest hfuel _
  cases fuel with
  | zero => simp [jsize] at hfuel
  | succ f =>
    rw [show prettyVal ind (Json.arr []) ++ rest = '[' :: (']' :: rest) from by
      simp [prettyVal]]
    simp only [parseVal]
    rw [skipWs_cons_not (by decide)]
    simp only []
    simp only [reduceIte]
    rw [skipWs_cons_not (by decide)]
    simp

theorem parseRound_obj_nil : ParseRound (Json.obj []) := by
  intro fuel ind rest hfuel _
  cases fuel with
  | zero => simp [jsize] at hfuel
  | succ f =>
    rw [show prettyVal ind (Json.obj []) ++ rest = '{' :: ('}' :: rest) from by
      simp [prettyVal]]
    simp only [parseVal]
    rw [skipWs_cons_not (by decide)]
    simp only []
    simp only [reduceIte]
    rw [skipWs_cons_not (by decide)]
    simp

theorem parseItems_round :
    ∀ (xs : List Json) (x : Json),
      (∀ z ∈ x :: xs, ParseRound z) →
      ∀ (fuel ind cInd : Nat) (rest : List Char), jitems x xs ≤ fuel →
        parseItems fuel
          (prettyItems ind x xs ++ ('\n' :: (indentChars cInd ++ (']' :: rest)))) =
          some (x :: xs, rest) := by
  intro xs
  induction xs with
  | nil =>
    intro x hPR fuel ind cInd rest hfuel
    have hj : 1 + jsize x ≤ fuel := by simpa [jitems] using hfuel
    cases fuel with
    | zero => omega
    | succ f =>
      simp only [parseItems]
      rw [show prettyItems ind x [] ++ ('\n' :: (indentChars cInd ++ (']' :: rest))) =
        indentChars ind ++
          (prettyVal ind x ++ ('\n' :: (indentChars cInd ++ (']' :: rest)))) from by
          simp [prettyItems, List.append_assoc]]
      rw [parseVal_congr_skipWs f (skipWs_indent ind _)]
      rw [hPR x (by simp) f ind _ (by omega) (fun c hc => by
        simp only [List.head?_cons, Option.some.injEq] at hc
        subst hc
        rfl)]
      simp only []
      rw [show skipWs ('\n' :: (indentChars cInd ++ (']' :: rest))) = ']' :: rest from by
        rw [skipWs_newline, skipWs_indent, skipWs_cons_not (by decide)]]
      simp

  | cons y ys ih =>
    intro x hPR fuel ind cInd rest hfuel
    have hj : 1 + jsize x + jitems y ys ≤ fuel := by simpa [jitems] using hfuel
    cases fuel with
    | zero => omega
    | succ f =>
      simp only [parseItems]
      rw [show prettyItems ind x (y :: ys) ++ ('\n' :: (indentChars cInd ++ (']' :: rest))) =
        indentChars ind ++ (prettyVal ind x ++
          (',' :: ('\n' :: (prettyItems ind y ys ++
            ('\n' :: (indentChars cInd ++ (']' :: rest))))))) from by
          simp [prettyItems, List.append_assoc]]
      rw [parseVal_congr_skipWs f (skipWs_indent ind _)]
      rw [hPR x (by simp) f ind _ (by omega) (fun c hc => by
        simp only [List.head?_cons, Option.some.injEq] at hc
        subst hc
        rfl)]
      simp only []
      rw [show skipWs (',' :: ('\n' :: (prettyItems ind y ys ++
          ('\n' :: (indentChars cInd ++ (']' :: rest)))))) =
        ',' :: ('\n' :: (prettyItems ind y ys ++
          ('\n' :: (indentChars cInd ++ (']' :: rest))))) from
        skipWs_cons_not (by decide) _]
      simp only [List.head?_cons, List.tail_cons]
      rw [if_pos trivial]
      rw [parseItems_ws_head f _]
      rw [ih y (fun z hz => hPR z (by
        simp only [List.mem_cons] at hz ⊢
        tauto)) f ind cInd rest (by omega)]
      rfl

theorem parseFields_round :
    ∀ (qs : List (String × Json)) (k : String) (v : Json),
      (∀ z ∈ (k, v) :: qs, ParseRound z.2) →
      ∀ (fuel ind cInd : Nat) (rest : List Char), jfields v qs ≤ fuel →
        parseFields fuel
          (prettyFields ind k v qs ++ ('\n' :: (indentChars cInd ++ ('}' :: rest)))) =
          some ((k, v) :: qs, rest) := by
  intro qs
  induction qs with
  | nil =>
    intro k v hPR fuel ind cInd rest hfuel
    have hj : 1 + jsize v ≤ fuel := by simpa [jfields] using hfuel
    cases fuel with
    | zero => omega
    | succ f =>
      simp only [parseFields]
      rw [show prettyFields ind k v [] ++ ('\n' :: (indentChars cInd ++ ('}' :: rest))) =
        indentChars ind ++ ('"' :: (escapeChars k.data ++
          ('"' :: (':' :: (' ' :: (prettyVal ind v ++
            ('\n' :: (indentChars cInd ++ ('}' :: rest))))))))) from by
          simp [prettyFields, quoteChars, List.append_assoc]]
      rw [show skipWs (indentChars ind ++ ('"' :: (escapeChars k.data ++
          ('"' :: (':' :: (' ' :: (prettyVal ind v ++
            ('\n' :: (indentChars cInd ++ ('}' :: rest)))))))))) =
        '"' :: (escapeChars k.data ++
          ('"' :: (':' :: (' ' :: (prettyVal ind v ++
            ('\n' :: (indentChars cInd ++ ('}' :: rest)))))))) from by
          rw [skipWs_indent, skipWs_cons_not (by decide)]]
      simp only []
      rw [if_pos trivial]
      rw [parseStringRest_round k.data _]
      simp only []
      rw [show skipWs (':' :: (' ' :: (prettyVal ind v ++
          ('\n' :: (indentChars cInd ++ ('}' :: rest)))))) =
        ':' :: (' ' :: (prettyVal ind v ++
          ('\n' :: (indentChars cInd ++ ('}' :: rest))))) from skipWs_cons_not (by decide) _]
      simp only [List.head?_cons, List.tail_cons]
      rw [if_pos trivial]
      rw [parseVal_congr_skipWs f (skipWs_cons_ws (by decide) _)]
      rw [hPR (k, v) (by simp) f ind _ (show jsize v ≤ f by omega) (fun c hc => by
        simp only [List.head?_cons, Option.some.injEq] at hc
        subst hc
        rfl)]
      simp only []
      rw [show skipWs ('\n' :: (indentChars cInd ++ ('}' :: rest))) = '}' :: rest from by
        rw [skipWs_newline, skipWs_indent, skipWs_cons_not (by decide)]]
      simp
  | cons q qs2 ih =>
    obtain ⟨k2, v2⟩ := q
    intro k v hPR fuel ind cInd rest hfuel
    have hj : 1 + jsize v + jfields v2 qs2 ≤ fuel := by simpa [jfields] using hfuel
    cases fuel with
    | zero => omega
    | succ f =>
      simp only [parseFields]
      rw [show prettyFields ind k v ((k2, v2) :: qs2) ++
          ('\n' :: (indentChars cInd ++ ('}' :: rest))) =
        indentChars ind ++ ('"' :: (escapeChars k.data ++
          ('"' :: (':' :: (' ' :: (prettyVal ind v ++
            (',' :: ('\n' :: (prettyFields ind k2 v2 qs2 ++
              ('\n' :: (indentChars cInd ++ ('}' :: rest)))))))))))) from by
          simp [prettyFields, quoteChars, List.append_assoc]]
      rw [show skipWs (indentChars ind ++ ('"' :: (escapeChars k.data ++
          ('"' :: (':' :: (' ' :: (prettyVal ind v ++
            (',' :: ('\n' :: (prettyFields ind k2 v2 qs2 ++
              ('\n' :: (indentChars cInd ++ ('}' :: rest))))))))))))) =
        '"' :: (escapeChars k.data ++
          ('"' :: (':' :: (' ' :: (prettyVal ind v ++
            (',' :: ('\n' :: (prettyFields ind k2 v2 qs2 ++
              ('\n' :: (indentChars cInd ++ ('}' :: rest))))))))))) from by
          rw [skipWs_indent, skipWs_cons_not (by decide)]]
      simp only []
      rw [if_pos trivial]
      rw [parseStringRest_round k.data _]
      simp only []
      rw [show skipWs (':' :: (' ' :: (prettyVal ind v ++
          (',' :: ('\n' :: (prettyFields ind k2 v2 qs2 ++
            ('\n' :: (indentChars cInd ++ ('}' :: rest))))))))) =
        ':' :: (' ' :: (prettyVal ind v ++
          (',' :: ('\n' :: (prettyFields ind k2 v2 qs2 ++
            ('\n' :: (indentChars cInd ++ ('}' :: rest)))))))) from
        skipWs_cons_not (by decide) _]
      simp only [List.head?_cons, List.tail_cons]
      rw [if_pos trivial]
      rw [parseVal_congr_skipWs f (skipWs_cons_ws (by decide) _)]
      rw [hPR (k, v) (by simp) f ind _ (show jsize v ≤ f by omega) (fun c hc => by
        simp only [List.head?_cons, Option.some.injEq] at hc
        subst hc
        rfl)]
      simp only []
      rw [show skipWs (',' :: ('\n' :: (prettyFields ind k2 v2 qs2 ++
          ('\n' :: (indentChars cInd ++ ('}' :: rest)))))) =
        ',' :: ('\n' :: (prettyFields ind k2 v2 qs2 ++
          ('\n' :: (indentChars cInd ++ ('}' :: rest))))) from
        skipWs_cons_not (by decide) _]
      simp only [List.head?_cons, List.tail_cons]
      rw [if_pos trivial]
      rw [parseFields_ws f (skipWs_newline _)]
      rw [ih k2 v2 (fun z hz => hPR z (by
        simp only [List.mem_cons] at hz ⊢
        tauto)) f ind cInd rest (by omega)]
      rfl

theorem parseRound_arr_cons (x : Json) (xs : List Json)
    (h : ∀ z ∈ x :: xs, ParseRound z) : ParseRound (Json.arr (x :: xs)) := by
  intro fuel ind rest hfuel hrest
  have hj : 1 + jitems x xs ≤ fuel := by simpa [jsize] using hfuel
  cases fuel with
  | zero => omega
  | succ f =>
    rw [show prettyVal ind (Json.arr (x :: xs)) ++ rest =
      '[' :: ('\n' :: (prettyItems (ind + 1) x xs ++
        ('\n' :: (indentChars ind ++ (']' :: rest))))) from by
        simp [prettyVal, List.append_assoc]]
    simp only [parseVal, skipWs_cons_not (show isWsChar '[' = false by decide)]
    obtain ⟨c0, l0, hsk, -, hne1, -⟩ := skipWs_prettyItems (ind + 1) x xs
      ('\n' :: (indentChars ind ++ (']' :: rest)))
    rw [skipWs_newline, hsk]
    rw [parseItems_ws_head f _]
    rw [parseItems_round xs x h f (ind + 1) ind rest (by omega)]
    simp [hne1]

theorem parseRound_obj_cons (k : String) (v : Json) (ps : List (String × Json))
    (h : ∀ z ∈ (k, v) :: ps, ParseRound z.2) : ParseRound (Json.obj ((k, v) :: ps)) := by
  intro fuel ind rest hfuel hrest
  have hj : 1 + jfields v ps ≤ fuel := by simpa [jsize] using hfuel
  cases fuel with
  | zero => omega
  | succ f =>
    rw [show prettyVal ind (Json.obj ((k, v) :: ps)) ++ rest =
      '{' :: ('\n' :: (prettyFields (ind + 1) k v ps ++
        ('\n' :: (indentChars ind ++ ('}' :: rest))))) from by
        simp [prettyVal, List.append_assoc]]
    simp only [parseVal, skipWs_cons_not (show isWsChar '{' = false by decide)]
    obtain ⟨l0, hsk⟩ := skipWs_prettyFields (ind + 1) k v ps
      ('\n' :: (indentChars ind ++ ('}' :: rest)))
    rw [skipWs_newline, hsk]
    rw [parseFields_ws f (skipWs_newline _)]
    rw [parseFields_round ps k v h f (ind + 1) ind rest (by omega)]
    simp

theorem parseRound_all : ∀ (n : Nat) (v : Json), sizeOf v ≤ n → ParseRound v := by
  intro n
  induction n with
  | zero =>
    intro v hv
    exfalso
    cases v <;> simp at hv
  | succ n ih =>
    intro v hv
    cases v with
    | null => exact parseRound_null
    | bool b => exact parseRound_bool b
    | num m => exact parseRound_num m
    | str s => exact parseRound_str s
    | arr xs =>
      cases xs with
      | nil => exact parseRound_arr_nil
      | cons x xs2 =>
        apply parseRound_arr_cons
        intro z hz
        apply ih
        have h1 : sizeOf z < sizeOf (x :: xs2) := List.sizeOf_lt_of_mem hz
        have h2 : sizeOf (Json.arr (x :: xs2)) = 1 + sizeOf (x :: xs2) := by simp
        omega
    | obj ps =>
      cases ps with
      | nil => exact parseRound_obj_nil
      | cons p ps2 =>
        obtain ⟨k, v2⟩ := p
        apply parseRound_obj_cons
        intro z hz
        have h1 : sizeOf z < sizeOf ((k, v2) :: ps2) := List.sizeOf_lt_of_mem hz
        have h2 : sizeOf z.2 < sizeOf z := by
          obtain ⟨a, b⟩ := z
          simp <;> omega
        apply ih
        have h3 : sizeOf (Json.obj ((k, v2) :: ps2)) = 1 + sizeOf ((k, v2) :: ps2) := by
          simp
        omega

/-- Every JSON value roundtrips through printing and parsing. -/
theorem parseRound (v : Json) : ParseRound v :=
  parseRound_all (sizeOf v) v (Nat.le_refl _)

/-! ## The default fuel of `parseJson` suffices for printed values -/

theorem jitems_le_pretty :
    ∀ (xs : List Json) (x : Json),
      (∀ z ∈ x :: xs, ∀ ind, jsize z ≤ (prettyVal ind z).length) →
      ∀ ind, jitems x xs ≤ (prettyItems ind x xs).length + 1 := by
  intro xs
  induction xs with
  | nil =>
    intro x H ind
    have h1 := H x (by simp) ind
    have h2 : (prettyItems ind x []).length = 4 * ind + (prettyVal ind x).length := by
      simp [prettyItems, indentChars]
    simp only [jitems]
    omega
  | cons y ys ih =>
    intro x H ind
    have h1 := H x (by simp) ind
    have h2 := ih y (fun z hz => H z (by simp only [List.mem_cons] at hz ⊢; tauto)) ind
    have h3 : (prettyItems ind x (y :: ys)).length =
        4 * ind + (prettyVal ind x).length + 2 + (prettyItems ind y ys).length := by
      simp [prettyItems, indentChars]
      omega
    simp only [jitems]
    omega

theorem jfields_le_pretty :
    ∀ (qs : List (String × Json)) (k : String) (v : Json),
      (∀ z ∈ (k, v) :: qs, ∀ ind, jsize z.2 ≤ (prettyVal ind z.2).length) →
      ∀ ind, jfields v qs ≤ (prettyFields ind k v qs).length + 1 := by
  intro qs
  induction qs with
  | nil =>
    intro k v H ind
    have h1 := H (k, v) (by simp) ind
    have h2 : (prettyFields ind k v []).length =
        4 * ind + (quoteChars k).length + 2 + (prettyVal ind v).length := by
      simp [prettyFields, indentChars]
      omega
    simp only [jfields]
    simp only at h1
    omega
  | cons q qs2 ih =>
    obtain ⟨k2, v2⟩ := q
    intro k v H ind
    have h1 := H (k, v) (by simp) ind
    have h2 := ih k2 v2 (fun z hz => H z (by simp only [List.mem_cons] at hz ⊢; tauto)) ind
    have h3 : (prettyFields ind k v ((k2, v2) :: qs2)).length =
        4 * ind + (quoteChars k).length + 2 + (prettyVal ind v).length
          + 2 + (prettyFields ind k2 v2 qs2).length := by
      simp [prettyFields, indentChars]
      omega
    simp only [jfields]
    simp only at h1
    omega

theorem jsize_le_pretty : ∀ (n : Nat) (v : Json), sizeOf v ≤ n →
    ∀ ind, jsize v ≤ (prettyVal ind v).length := by
  intro n
  induction n with
  | zero =>
    intro v hv
    exfalso
    cases v <;> simp at hv
  | succ n ih =>
    intro v hv ind
    cases v with
    | null => simp [jsize, prettyVal]
    | bool b => cases b <;> simp [jsize, prettyVal]
    | num m =>
      have : 1 ≤ (intChars m).length := by
        unfold intChars
        split
        · simp
        · exact List.length_pos.mpr (natChars_ne_nil _)
      simp only [jsize]
      rw [show prettyVal ind (Json.num m) = intChars m from by simp [prettyVal]]
      omega
    | str s =>
      rw [show prettyVal ind (Json.str s) = quoteChars s from by simp [prettyVal]]
      simp [jsize, quoteChars]
    | arr xs =>
      cases xs with
      | nil => simp [jsize, prettyVal]
      | cons x xs2 =>
        have H : ∀ z ∈ x :: xs2, ∀ ind2, jsize z ≤ (prettyVal ind2 z).length := by
          intro z hz ind2
          apply ih
          · have h1 : sizeOf z < sizeOf (x :: xs2) := List.sizeOf_lt_of_mem hz
            have h2 : sizeOf (Json.arr (x :: xs2)) = 1 + sizeOf (x :: xs2) := by simp
            omega
        have hitems := jitems_le_pretty xs2 x H (ind + 1)
        have hlen : (prettyVal ind (Json.arr (x :: xs2))).length =
            2 + (prettyItems (ind + 1) x xs2).length + 2 + 4 * ind := by
          simp [prettyVal, indentChars]
          omega
        simp only [jsize]
        omega
    | obj ps =>
      cases ps with
      | nil => simp [jsize, prettyVal]
      | cons p ps2 =>
        obtain ⟨k, v2⟩ := p
        have H : ∀ z ∈ (k, v2) :: ps2, ∀ ind2, jsize z.2 ≤ (prettyVal ind2 z.2).length := by
          intro z hz ind2
          apply ih
          · have h1 : sizeOf z < sizeOf ((k, v2) :: ps2) := List.sizeOf_lt_of_mem hz
            have h2 : sizeOf z.2 < sizeOf z := by
              obtain ⟨a, b⟩ := z
              simp <;> omega
            have h3 : sizeOf (Json.obj ((k, v2) :: ps2)) = 1 + sizeOf ((k, v2) :: ps2) := by
              simp
            omega
        have hfields := jfields_le_pretty ps2 k v2 H (ind + 1)
        have hlen : (prettyVal ind (Json.obj ((k, v2) :: ps2))).length =
            2 + (prettyFields (ind + 1) k v2 ps2).length + 2 + 4 * ind := by
          simp [prettyVal, indentChars]
          omega
        simp only [jsize]
        omega

/-! ## `parseJson ∘ stringifyJson` and the shape of parsed documents -/

theorem parseJson_stringify (v : Json) : parseJson (stringifyJson v) = some v := by
  unfold parseJson stringifyJson
  have hb := jsize_le_pretty (sizeOf v) v (Nat.le_refl _) 0
  have hr := parseRound v ((String.mk (prettyVal 0 v)).data.length + 1) 0 []
    (by simpa using by omega) (fun c hc => by cases hc)
  rw [List.append_nil] at hr
  rw [show (String.mk (prettyVal 0 v)).data = prettyVal 0 v from rfl, hr]
  rfl

theorem parseVal_brace_obj {fuel : Nat} {l : List Char} {v : Json} {r : List Char}
    (h : parseVal fuel ('{' :: l) = some (v, r)) : ∃ ps, v = Json.obj ps := by
  cases fuel with
  | zero => simp [parseVal] at h
  | succ f =>
    simp only [parseVal, skipWs_cons_not (show isWsChar '{' = false by decide)] at h
    rw [if_neg (show ¬(('{' : Char) = 't') by decide),
      if_neg (show ¬(('{' : Char) = 'f') by decide),
      if_neg (show ¬(('{' : Char) = '"') by decide),
      if_neg (show ¬(('{' : Char) = '[') by decide),
      if_pos trivial] at h
    by_cases hcond : (skipWs l).head? = some '}'
    · rw [if_pos hcond] at h
      have h2 := Option.some.inj h
      exact ⟨[], (congrArg Prod.fst h2).symm⟩
    · rw [if_neg hcond] at h
      obtain ⟨q, -, hq2⟩ := Option.map_eq_some'.mp h
      simp only [Prod.mk.injEq] at hq2
      exact ⟨q.1, hq2.1.symm⟩

theorem parseJson_brace_obj {t : String} (hj : isJson t = true) {v : Json}
    (h : parseJson t = some v) : ∃ ps, v = Json.obj ps := by
  have hhead : t.data.head? = some '{' := by
    unfold isJson at hj
    simp only [Bool.and_eq_true, beq_iff_eq] at hj
    exact hj.1
  cases hd : t.data with
  | nil => rw [hd] at hhead; cases hhead
  | cons c l =>
    rw [hd] at hhead
    simp only [List.head?_cons, Option.some.injEq] at hhead
    subst hhead
    unfold parseJson at h
    rw [hd] at h
    cases hpv : parseVal (('{' :: l).length + 1) ('{' :: l) with
    | none => rw [hpv] at h; cases h
    | some q =>
      obtain ⟨v2, r⟩ := q
      obtain ⟨ps, rfl⟩ := parseVal_brace_obj hpv
      rw [hpv] at h
      simp only [Option.bind] at h
      by_cases he : (skipWs r).isEmpty = true
      · rw [if_pos he] at h
        exact ⟨ps, (Option.some.inj h).symm⟩
      · rw [if_neg he] at h
        cases h

/-! ## Printed objects are JSON-shaped and trim-stable -/

theorem pretty_obj_head (ps : List (String × Json)) :
    (prettyVal 0 (Json.obj ps)).head? = some '{' := by
  cases ps with
  | nil => simp [prettyVal]
  | cons p ps2 =>
    obtain ⟨k, v⟩ := p
    simp [prettyVal]

theorem pretty_obj_getLast (ps : List (String × Json)) :
    (prettyVal 0 (Json.obj ps)).getLast? = some '}' := by
  cases ps with
  | nil =>
    rw [show prettyVal 0 (Json.obj []) = ['{', '}'] from by simp [prettyVal]]
    rfl
  | cons p ps2 =>
    obtain ⟨k, v⟩ := p
    rw [show prettyVal 0 (Json.obj ((k, v) :: ps2)) =
      ('{' :: '\n' :: prettyFields 1 k v ps2) ++ ('\n' :: (indentChars 0 ++ ['}'])) from by
        simp [prettyVal]]
    rw [List.getLast?_append_of_ne_nil _ (by simp)]
    rw [show indentChars 0 = [] from rfl]
    rfl

theorem isJson_stringify_obj (ps : List (String × Json)) :
    isJson (stringifyJson (Json.obj ps)) = true := by
  unfold isJson stringifyJson
  rw [show (String.mk (prettyVal 0 (Json.obj ps))).data = prettyVal 0 (Json.obj ps) from rfl]
  rw [pretty_obj_head ps, pretty_obj_getLast ps]
  rfl

theorem trimStr_stringify_obj (ps : List (String × Json)) :
    trimStr (stringifyJson (Json.obj ps)) = stringifyJson (Json.obj ps) := by
  unfold trimStr stringifyJson
  rw [show (String.mk (prettyVal 0 (Json.obj ps))).data = prettyVal 0 (Json.obj ps) from rfl]
  rw [trimChars_eq_self]
  · intro c hc
    rw [pretty_obj_head ps] at hc
    simp only [Option.some.injEq] at hc
    subst hc
    rfl
  · intro c hc
    rw [pretty_obj_getLast ps] at hc
    simp only [Option.some.injEq] at hc
    subst hc
    rfl

/-! ## Claim theorems: body formatting -/

theorem formatBody_unfold (b : String) :
    formatBody b =
      if isJson (trimStr b) then
        (match parseJson (trimStr b) with
         | some obj => stringifyJson obj
         | none => trimStr b)
      else trimStr b := rfl

/-- C7: body formatting is idempotent — applying `formatBody` to an already
formatted body (in particular a 4-space-indented JSON body) returns it
unchanged. -/
theorem formatBody_idempotent (body : String) :
    formatBody (formatBody body) = formatBody body := by
  by_cases hj : isJson (trimStr body) = true
  · cases hp : parseJson (trimStr body) with
    | none =>
      have h1 : formatBody body = trimStr body := by
        rw [formatBody_unfold, if_pos hj, hp]
      rw [h1, formatBody_unfold, trimStr_idem, if_pos hj, hp]
    | some v =>
      obtain ⟨ps, rfl⟩ := parseJson_brace_obj hj hp
      have h1 : formatBody body = stringifyJson (Json.obj ps) := by
        rw [formatBody_unfold, if_pos hj, hp]
      rw [h1, formatBody_unfold, trimStr_stringify_obj,
        if_pos (isJson_stringify_obj ps), parseJson_stringify]
  · have h1 : formatBody body = trimStr body := by
      rw [formatBody_unfold, if_neg hj]
    rw [h1, formatBody_unfold, trimStr_idem, if_neg hj]

/-- C8: `formatBody` never fails: when the trimmed body is not JSON-shaped,
or when it is JSON-shaped but does not parse, the trimmed text is returned
unchanged — the parse failure is absorbed. -/
theorem formatBody_absorbs_failures (body : String)
    (h : isJson (trimStr body) = false ∨ parseJson (trimStr body) = none) :
    formatBody body = trimStr body := by
  rcases h with h | h
  · rw [formatBody_unfold, if_neg (by rw [h]; simp)]
  · by_cases hj : isJson (trimStr body) = true
    · rw [formatBody_unfold, if_pos hj, h]
    · rw [formatBody_unfold, if_neg hj]

/-- Witness for C8 at concrete bodies: `"hello"` is not JSON-shaped, and
`"{oops}"` is JSON-shaped but fails to parse; both pass through trimmed. -/
theorem formatBody_absorbs_failures_witness :
    formatBody " hello " = trimStr " hello " ∧ formatBody "{oops}" = trimStr "{oops}" :=
  ⟨formatBody_absorbs_failures " hello " (Or.inl rfl),
   formatBody_absorbs_failures "{oops}" (Or.inr rfl)⟩
